import Mathlib

/-!
Verification of the systemd-style time parsing engine (package `systemdtime`).

The engine is shallowly embedded: Go strings become `List Char` (every byte-level
comparison the source performs is on ASCII bytes or stops at non-ASCII bytes, so
the character-level view agrees with the byte-level one on all inputs the claims
touch); Go's 64-bit `time.Duration` arithmetic becomes `Int` with explicit
wrapping (`w64`); fallible functions return `Except Err α` where each `Err`
constructor stands for one family of error sites of the source.
Position-cursor code becomes suffix-passing: a reader takes the remaining
string and returns the value together with the rest of the string.
-/

deriving instance DecidableEq for Except

namespace Systemdtime

abbrev Str := List Char

/-- `s[i] >= '0' && s[i] <= '9'` in the source. -/
def isDigitC (c : Char) : Bool := '0' ≤ c && c ≤ '9'

/-- `s[i] == ' '` in the source. -/
def isSpaceC (c : Char) : Bool := c == ' '

/-- `(c >= 'a' && c <= 'z') || (c >= 'A' && c <= 'Z')` in the source. -/
def isLetterC (c : Char) : Bool := ('a' ≤ c && c ≤ 'z') || ('A' ≤ c && c ≤ 'Z')

/-- Shorthand turning a Lean string literal into the character-list view. -/
def lit (s : String) : Str := s.toList

/-- Error families; each constructor corresponds to one family of
`fmt.Errorf`/`errors.New` sites of the source. -/
inductive Err where
  | emptyInput
  | malformedNumber
  | unknownUnit
  | expectedDate
  | expectedTime
  | fieldOutOfRange
  | malformedOffset
  | offsetOutOfRange
  | unknownTimezone
  | ambiguousTime
  | expectedFullYear
  | weekdayRequiresDate
  | weekdayMismatch
  | trailingInput
  | expectedTimestamp
  deriving DecidableEq, Repr

/-- Decimal value of a digit run, as `strconv.Atoi` computes it (before its
range check). -/
def digitsVal (l : Str) : Int := l.foldl (fun a c => a * 10 + ((c.toNat : Int) - 48)) 0

/-- `math.MaxInt64`, the bound at which `strconv.Atoi` reports a range error. -/
def int64Max : Int := 9223372036854775807

/-- `2^63`; the signed 64-bit wrap point of Go's `time.Duration`. -/
def two63 : Int := 9223372036854775808

/-- Wrap an integer into the signed 64-bit range, as every Go `int64`
(`time.Duration`) arithmetic operation does. -/
def w64 (x : Int) : Int := (x + two63) % (2 * two63) - two63

/-- `readNum`: consumes the maximal digit run and converts it via
`strconv.Atoi`; empty run or an `Atoi` range error yields the
"expected number" error. -/
def readNum (s : Str) : Except Err (Int × Str) :=
  if s.takeWhile isDigitC = [] then .error .malformedNumber
  else if digitsVal (s.takeWhile isDigitC) > int64Max then .error .malformedNumber
  else .ok (digitsVal (s.takeWhile isDigitC), s.dropWhile isDigitC)

/-- `readFrac`: consumes the maximal digit run, truncates it to 9 digits and
pads to 9 digits, yielding a nanosecond value.  (`Atoi` on at most 9 digits
cannot fail, so the source's dead error check has no counterpart.) -/
def readFrac (s : Str) : Except Err (Int × Str) :=
  if s.takeWhile isDigitC = [] then .error .malformedNumber
  else
    .ok (digitsVal ((s.takeWhile isDigitC).take 9) *
          10 ^ (9 - ((s.takeWhile isDigitC).take 9).length),
         s.dropWhile isDigitC)

/-- `readWord`: consumes the maximal run of non-digit, non-space characters. -/
def readWord (s : Str) : Str × Str :=
  (s.takeWhile (fun c => !isSpaceC c && !isDigitC c),
   s.dropWhile (fun c => !isSpaceC c && !isDigitC c))

/-! ### Units (nanosecond scale factors of the `const` block) -/

def Nanosecond : Int := 1
def Microsecond : Int := 1000
def Millisecond : Int := 1000000
def Second : Int := 1000000000
def Minute : Int := 60000000000
def Hour : Int := 3600000000000
def Day : Int := 86400000000000
def Week : Int := 604800000000000
/-- `time.Duration(365.25 * float64(Day))`; the float computation is exact. -/
def Year : Int := 31557600000000000
/-- `Year / 12` (30.4375 days). -/
def Month : Int := 2629800000000000

/-- The unit `switch` of `ParseTimespan` (case-sensitive; the two non-ASCII
spellings are the micro sign U+00B5 and the Greek mu U+03BC). -/
def unitOf (w : Str) : Except Err Int :=
  if w = lit "ns" ∨ w = lit "nsec" then .ok Nanosecond
  else if w = lit "us" ∨ w = lit "µs" ∨ w = lit "μs" ∨ w = lit "usec" then .ok Microsecond
  else if w = lit "ms" ∨ w = lit "msec" then .ok Millisecond
  else if w = lit "s" ∨ w = lit "sec" ∨ w = lit "second" ∨ w = lit "seconds" then .ok Second
  else if w = lit "m" ∨ w = lit "min" ∨ w = lit "minute" ∨ w = lit "minutes" then .ok Minute
  else if w = lit "h" ∨ w = lit "hr" ∨ w = lit "hour" ∨ w = lit "hours" then .ok Hour
  else if w = lit "d" ∨ w = lit "day" ∨ w = lit "days" then .ok Day
  else if w = lit "w" ∨ w = lit "week" ∨ w = lit "weeks" then .ok Week
  else if w = lit "M" ∨ w = lit "month" ∨ w = lit "months" then .ok Month
  else if w = lit "y" ∨ w = lit "year" ∨ w = lit "years" then .ok Year
  else .error .unknownUnit

/-- One iteration's accumulation: `d += time.Duration(num) * unit` and, when a
fraction is present, the scaled fractional addend; every add and multiply is a
wrapping 64-bit operation, the divisions are exact/truncating on nonnegative
operands. -/
def spanStep (d num nsec unit : Int) : Int :=
  if nsec > 0 then
    if unit ≥ Second then w64 (w64 (d + w64 (num * unit)) + w64 (nsec * unit.tdiv Second))
    else w64 (w64 (d + w64 (num * unit)) + nsec.tdiv (Second.tdiv unit))
  else w64 (d + w64 (num * unit))

/-- The number part of a group: an integer is mandatory unless the group
starts with `.`, in which case it defaults to 0. -/
def spanNum (t : Str) : Except Err (Int × Str) :=
  match t with
  | [] => .error .malformedNumber
  | c :: _ =>
    if isDigitC c then readNum t
    else if c = '.' then .ok (0, t)
    else .error .malformedNumber

/-- The optional `.`-prefixed fraction after the number. -/
def spanFrac (s2 : Str) : Except Err (Int × Str) :=
  match s2 with
  | '.' :: s3 => readFrac s3
  | _ => .ok (0, s2)

/-- The unit word after the optional spaces: empty defaults to seconds,
otherwise the unit table decides. -/
def spanUnit (w : Str) : Except Err Int :=
  if w = [] then .ok Second else unitOf w

/-- One group of the `ParseTimespan` loop, starting at a non-space character:
number (mandatory unless the group starts with `.`), optional `.`-fraction,
spaces, unit word.  Returns `(num, nsec, unit, rest)`. -/
def spanGroup (t : Str) : Except Err (Int × Int × Int × Str) :=
  match spanNum t with
  | .error e => .error e
  | .ok (num, s2) =>
    match spanFrac s2 with
    | .error e => .error e
    | .ok (nsec, s4) =>
      match spanUnit (readWord (s4.dropWhile isSpaceC)).1 with
      | .error e => .error e
      | .ok u => .ok (num, nsec, u, (readWord (s4.dropWhile isSpaceC)).2)

/-- The `for i := 0; i < len(s);` loop of `ParseTimespan`.  Each iteration
consumes at least one character, so fuel `s.length + 1` always suffices
(`spanLoop_fuel`). -/
def spanLoop : Nat → Str → Int → Bool → Except Err Int
  | 0, _, _, _ => .error .emptyInput
  | fuel + 1, s, d, foundAny =>
    match s.dropWhile isSpaceC with
    | [] => if foundAny then .ok d else .error .emptyInput
    | c :: cs =>
      match spanGroup (c :: cs) with
      | .error e => .error e
      | .ok (num, nsec, unit, rest) => spanLoop fuel rest (spanStep d num nsec unit) true

/-- `ParseTimespan`. -/
def ParseTimespan (s : Str) : Except Err Int :=
  if s = [] then .error .emptyInput
  else if s = lit "0" then .ok 0
  else spanLoop (s.length + 1) s 0 false

/-! ### Locations and instants -/

/-- `*time.Location`: UTC, a fixed offset in seconds (`time.FixedZone`), or the
process-local zone (`time.Local`, location of `time.Unix` results and a
possible location of the caller's reference instant). -/
inductive Loc where
  | utc
  | fixed : Int → Loc
  | localZone
  deriving DecidableEq, Repr

/-- Offset from UTC in seconds.  The local zone's offset is environment state
outside the engine; it is modelled as 0, which no claim depends on. -/
def offsetOf : Loc → Int
  | .utc => 0
  | .fixed o => o
  | .localZone => 0

/-- `time.Time`: an absolute instant (nanoseconds since the Unix epoch,
unbounded — Go stores 64-bit seconds plus nanoseconds, far beyond any value the
claims reach) together with its location. -/
structure GoTime where
  nsec : Int
  loc : Loc
  deriving DecidableEq, Repr

/-- `t.Add(d)`: shift the instant by `d` nanoseconds. -/
def addDur (t : GoTime) (d : Int) : GoTime := ⟨t.nsec + d, t.loc⟩

/-- Days from 1970-01-01 to the civil date `y-m-d` (proleptic Gregorian,
`m ∈ [1,12]`, `d` unconstrained — an out-of-range day simply overflows into the
following months, exactly as `time.Date`'s day arithmetic does). -/
def daysFromCivil (y m d : Int) : Int :=
  let y1 := if m ≤ 2 then y - 1 else y
  let era := y1.fdiv 400
  let yoe := y1 - era * 400
  let mp := if m > 2 then m - 3 else m + 9
  let doy := (153 * mp + 2).fdiv 5 + d - 1
  let doe := yoe * 365 + yoe.fdiv 4 - yoe.fdiv 100 + doy
  era * 146097 + doe - 719468

/-- Civil date `(y, m, d)` of a day count from 1970-01-01 (inverse of
`daysFromCivil`; the conversion `time.Time.Date` performs). -/
def civilFromDays (z0 : Int) : Int × Int × Int :=
  let z := z0 + 719468
  let era := z.fdiv 146097
  let doe := z - era * 146097
  let yoe := (doe - doe.fdiv 1460 + doe.fdiv 36524 - doe.fdiv 146096).fdiv 365
  let y := yoe + era * 400
  let doy := doe - (365 * yoe + yoe.fdiv 4 - yoe.fdiv 100)
  let mp := (5 * doy + 2).fdiv 153
  let d := doy - (153 * mp + 2).fdiv 5 + 1
  let m := if mp < 10 then mp + 3 else mp - 9
  (if m ≤ 2 then y + 1 else y, m, d)

/-- `time.Date(year, month, day, hour, min, sec, nsec, loc)`: normalize each
field into range (overflow carried into the next larger field), convert the
civil fields to an absolute time, and subtract the location's offset. -/
def timeDate (year month day hour minute sec nsec : Int) (l : Loc) : GoTime :=
  let sec1 := sec + nsec.fdiv 1000000000
  let nsec1 := nsec.emod 1000000000
  let min1 := minute + sec1.fdiv 60
  let sec2 := sec1.emod 60
  let hour1 := hour + min1.fdiv 60
  let min2 := min1.emod 60
  let day1 := day + hour1.fdiv 24
  let hour2 := hour1.emod 24
  let year1 := year + (month - 1).fdiv 12
  let month1 := (month - 1).emod 12 + 1
  let days := daysFromCivil year1 month1 day1
  let unix := days * 86400 + hour2 * 3600 + min2 * 60 + sec2 - offsetOf l
  ⟨unix * 1000000000 + nsec1, l⟩

/-- `t.In(l).Date()`: the civil date of instant `t` read in location `l`. -/
def dateInLoc (t : GoTime) (l : Loc) : Int × Int × Int :=
  civilFromDays ((t.nsec.fdiv 1000000000 + offsetOf l).fdiv 86400)

/-- `t.Date()`. -/
def dateOf (t : GoTime) : Int × Int × Int := dateInLoc t t.loc

/-- `t.Year()`. -/
def yearOf (t : GoTime) : Int := (dateOf t).1

/-- `t.Weekday()` as Go's numbering (`Sunday = 0` … `Saturday = 6`);
1970-01-01 was a Thursday (= 4). -/
def weekdayOf (t : GoTime) : Int :=
  ((t.nsec.fdiv 1000000000 + offsetOf t.loc).fdiv 86400 + 4).emod 7

/-! ### Timestamp sub-parsers -/

/-- The two-digit-year mapping of `handleDate` (values below the 100
threshold map into 2000–2068 / 1969–1999). -/
def dateYear (year0 : Int) : Int :=
  if year0 ≥ 100 then year0
  else if year0 ≤ 68 then year0 + 2000 else year0 + 1900

/-- `handleDate`: `YYYY-MM-DD` or `YY-MM-DD`; returns
`(year, month, day, fullYear, rest)`.  A year value below 100 is mapped
(0–68 → 2000–2068, 69–99 → 1969–1999). -/
def handleDate (s : Str) : Except Err (Int × Int × Int × Bool × Str) :=
  match s with
  | [] => .error .expectedDate
  | _ :: _ =>
    match readNum s with
    | .error e => .error e
    | .ok (year0, s1) =>
      match s1 with
      | '-' :: s2 =>
        match readNum s2 with
        | .error e => .error e
        | .ok (month, s3) =>
          if month < 1 ∨ month > 12 then .error .fieldOutOfRange
          else
            match s3 with
            | '-' :: s4 =>
              match readNum s4 with
              | .error e => .error e
              | .ok (day, s5) =>
                if day < 1 ∨ day > 31 then .error .fieldOutOfRange
                else .ok (dateYear year0, month, day, decide (year0 ≥ 100), s5)
            | _ => .error .expectedDate
      | _ => .error .expectedDate

/-- `handleTime`: `HH[:MM[:SS[.fraction]]]`; returns
`(hour, minute, second, nsec, rest)`. -/
def handleTime (s : Str) : Except Err (Int × Int × Int × Int × Str) :=
  match s with
  | [] => .error .expectedTime
  | _ :: _ =>
    match readNum s with
    | .error e => .error e
    | .ok (hour, s1) =>
      if hour > 23 then .error .fieldOutOfRange
      else
        match s1 with
        | ':' :: s2 =>
          match readNum s2 with
          | .error e => .error e
          | .ok (minute, s3) =>
            if minute > 59 then .error .fieldOutOfRange
            else
              match s3 with
              | ':' :: s4 =>
                match readNum s4 with
                | .error e => .error e
                | .ok (sec, s5) =>
                  if sec > 59 then .error .fieldOutOfRange
                  else
                    match s5 with
                    | '.' :: s6 =>
                      match readFrac s6 with
                      | .error e => .error e
                      | .ok (ns, s7) => .ok (hour, minute, sec, ns, s7)
                    | _ => .ok (hour, minute, sec, 0, s5)
              | _ => .ok (hour, minute, 0, 0, s3)
        | _ => .ok (hour, 0, 0, 0, s1)

/-- Modelled from the spec: the external IANA timezone-database collaborator
(`time.LoadLocation`), `lookup(name) → Zone | NotFoundError`.  The database
contents are environment state outside the engine; it is modelled as containing
no entries, which no claim depends on. -/
def loadLocation (_name : Str) : Except Err Loc := .error .unknownTimezone

/-- `handleTimezone`: `Z` or `UTC` (matched against the whole remaining
input), a `±HH[:MM]`/`±HHMM` offset, or an IANA zone name (maximal non-space
run, resolved through `loadLocation`). -/
def handleTimezone (s : Str) : Except Err (Loc × Str) :=
  match s with
  | [] => .error .unknownTimezone
  | c :: rest =>
    if s = lit "Z" then .ok (.utc, [])
    else if s = lit "UTC" then .ok (.utc, [])
    else if c = '+' ∨ c = '-' then
      let sign : Int := if c = '-' then -1 else 1
      match rest with
      | [] => .error .malformedOffset
      | _ :: _ =>
        let digits := (rest.takeWhile isDigitC).length
        match readNum rest with
        | .error e => .error e
        | .ok (num, r1) =>
          if digits = 2 then
            match r1 with
            | ':' :: r2 =>
              let mdigits := (r2.takeWhile isDigitC).length
              match readNum r2 with
              | .error e => .error e
              | .ok (mins, r3) =>
                if mdigits ≠ 2 then .error .malformedOffset
                else if mins ≥ 60 then .error .offsetOutOfRange
                else
                  let offsetSecs := num * 3600 + mins * 60
                  if offsetSecs > 86400 then .error .offsetOutOfRange
                  else .ok (.fixed (sign * offsetSecs), r3)
            | _ =>
              if num > 24 then .error .offsetOutOfRange
              else .ok (.fixed (sign * num * 3600), r1)
          else if digits = 4 then
            let hours := num.tdiv 100
            let mins := num.emod 100
            if mins ≥ 60 then .error .offsetOutOfRange
            else
              let offsetSecs := hours * 3600 + mins * 60
              if offsetSecs > 86400 then .error .offsetOutOfRange
              else .ok (.fixed (sign * offsetSecs), r1)
          else .error .malformedOffset
    else
      let tz := s.takeWhile (fun c => !isSpaceC c)
      if tz = [] then .error .unknownTimezone
      else
        match loadLocation tz with
        | .error e => .error e
        | .ok l => .ok (l, s.dropWhile (fun c => !isSpaceC c))

/-- ASCII lowering, the effect of `strings.ToLower` on every input the weekday
table can match. -/
def toLowerC (c : Char) : Char :=
  if 'A' ≤ c ∧ c ≤ 'Z' then Char.ofNat (c.toNat + 32) else c

/-- `handleWeekday`: reads a bare word and matches it case-insensitively
against abbreviated or full English weekday names; `none` when the word is
empty or not a weekday (cursor untouched). -/
def handleWeekday (s : Str) : Option (Int × Str) :=
  if (readWord s).1 = [] then none
  else if (readWord s).1.map toLowerC = lit "mon" ∨
      (readWord s).1.map toLowerC = lit "monday" then some (1, (readWord s).2)
  else if (readWord s).1.map toLowerC = lit "tue" ∨
      (readWord s).1.map toLowerC = lit "tuesday" then some (2, (readWord s).2)
  else if (readWord s).1.map toLowerC = lit "wed" ∨
      (readWord s).1.map toLowerC = lit "wednesday" then some (3, (readWord s).2)
  else if (readWord s).1.map toLowerC = lit "thu" ∨
      (readWord s).1.map toLowerC = lit "thursday" then some (4, (readWord s).2)
  else if (readWord s).1.map toLowerC = lit "fri" ∨
      (readWord s).1.map toLowerC = lit "friday" then some (5, (readWord s).2)
  else if (readWord s).1.map toLowerC = lit "sat" ∨
      (readWord s).1.map toLowerC = lit "saturday" then some (6, (readWord s).2)
  else if (readWord s).1.map toLowerC = lit "sun" ∨
      (readWord s).1.map toLowerC = lit "sunday" then some (0, (readWord s).2)
  else none

/-- `handleUnix`: unix seconds with optional fraction; `time.Unix` results
carry the local zone. -/
def handleUnix (s : Str) : Except Err GoTime :=
  match readNum s with
  | .error e => .error e
  | .ok (num, s1) =>
    match s1 with
    | '.' :: s2 =>
      match readFrac s2 with
      | .error e => .error e
      | .ok (ns, s3) =>
        if s3 = [] then .ok ⟨num * 1000000000 + ns, .localZone⟩
        else .error .trailingInput
    | _ =>
      if s1 = [] then .ok ⟨num * 1000000000, .localZone⟩
      else .error .trailingInput

/-- Location handling of `handleToken` after the token itself: optional
spaces and an optional timezone, with nothing allowed after it. -/
def tokenLoc (rest : Str) (now : GoTime) : Except Err Loc :=
  if rest = [] then .ok now.loc
  else if rest.dropWhile isSpaceC = [] then .ok now.loc
  else
    match handleTimezone (rest.dropWhile isSpaceC) with
    | .error e => .error e
    | .ok (l, r2) => if r2 = [] then .ok l else .error .trailingInput

/-- Result construction of `handleToken`: midnight of the reference date in
`l`, shifted by the token's day offset. -/
def tokenResult (s : Str) (now : GoTime) (tokenLen : Nat) (off : Int) :
    Except Err GoTime :=
  match tokenLoc (s.drop tokenLen) now with
  | .error e => .error e
  | .ok l =>
    .ok (timeDate (dateInLoc now l).1 (dateInLoc now l).2.1
      ((dateInLoc now l).2.2 + off) 0 0 0 0 l)

/-- `handleToken`: `today`/`yesterday`/`tomorrow` with an optional timezone;
`none` when no token prefix matches. -/
def handleToken (s : Str) (now : GoTime) : Option (Except Err GoTime) :=
  if (lit "today").isPrefixOf s then some (tokenResult s now 5 0)
  else if (lit "yesterday").isPrefixOf s then some (tokenResult s now 9 (-1))
  else if (lit "tomorrow").isPrefixOf s then some (tokenResult s now 8 1)
  else none

/-! ### The timestamp orchestrator -/

/-- First `':'` or `'-'` within the lookahead window. -/
def scanCD : Str → Bool × Bool
  | [] => (false, false)
  | c :: r =>
    if c = ':' then (true, false)
    else if c = '-' then (false, true)
    else scanCD r

/-- The date-or-time discriminator: inspect at most 5 characters, only when
they start with a digit; returns `(foundColon, foundDash)`. -/
def lookahead (s1 : Str) : Bool × Bool :=
  match s1 with
  | c :: _ => if isDigitC c then scanCD (s1.take 5) else (false, false)
  | [] => (false, false)

/-- Tail of the civil branch: end-of-input check, weekday-requires-date check,
`time.Date` construction, weekday cross-check. -/
def civilFinish (wd? : Option Int) (foundDash : Bool) (y m d hh mm ss ns : Int)
    (l : Loc) (rest : Str) : Except Err GoTime :=
  if rest ≠ [] then .error .trailingInput
  else if wd?.isSome ∧ ¬foundDash then .error .weekdayRequiresDate
  else
    match wd? with
    | some w =>
      if weekdayOf (timeDate y m d hh mm ss ns l) ≠ w then .error .weekdayMismatch
      else .ok (timeDate y m d hh mm ss ns l)
    | none => .ok (timeDate y m d hh mm ss ns l)

/-- Time-and-timezone stage of the civil branch (everything after the optional
date). -/
def civilTime (wd? : Option Int) (foundColon foundDash : Bool) (y m d : Int)
    (s3 : Str) (ref : GoTime) : Except Err GoTime :=
  match s3 with
  | c :: _ =>
    if isDigitC c then
      if ¬foundDash ∧ ¬foundColon then .error .ambiguousTime
      else
        match handleTime s3 with
        | .error e => .error e
        | .ok (hh, mm, ss, ns, s4) =>
          match s4.dropWhile isSpaceC with
          | c2 :: cs2 =>
            if c2 = '+' ∨ c2 = '-' ∨ c2 = 'Z' ∨ ('A' ≤ c2 ∧ c2 ≤ 'Z') ∨
                ('a' ≤ c2 ∧ c2 ≤ 'z') then
              match handleTimezone (c2 :: cs2) with
              | .error e => .error e
              | .ok (l, s6) => civilFinish wd? foundDash y m d hh mm ss ns l s6
            else civilFinish wd? foundDash y m d hh mm ss ns ref.loc (c2 :: cs2)
          | [] => civilFinish wd? foundDash y m d hh mm ss ns ref.loc []
    else
      match handleTimezone s3 with
      | .error e => .error e
      | .ok (l, s6) => civilFinish wd? foundDash y m d 0 0 0 0 l s6
  | [] => civilFinish wd? foundDash y m d 0 0 0 0 ref.loc []

/-- Date stage of the civil branch: discriminator, optional date, `T`-or-space
separator. -/
def civilDate (wd? : Option Int) (s1 : Str) (ref : GoTime) : Except Err GoTime :=
  if s1 ≠ [] ∧ (lookahead s1).2 ∧ ¬(lookahead s1).1 then
    match handleDate s1 with
    | .error e => .error e
    | .ok (y, m, d, fy, s2) =>
      match s2 with
      | 'T' :: s3 =>
        if fy then civilTime wd? (lookahead s1).1 (lookahead s1).2 y m d s3 ref
        else .error .expectedFullYear
      | _ => civilTime wd? (lookahead s1).1 (lookahead s1).2 y m d
          (s2.dropWhile isSpaceC) ref
  else
    civilTime wd? (lookahead s1).1 (lookahead s1).2 (dateOf ref).1
      (dateOf ref).2.1 (dateOf ref).2.2 s1 ref

/-- Civil-timestamp branch: optional weekday, then date/time/timezone. -/
def parseCivil (s : Str) (ref : GoTime) : Except Err GoTime :=
  match handleWeekday s with
  | some (w, r) => civilDate (some w) (r.dropWhile isSpaceC) ref
  | none => civilDate none s ref

/-- `ParseTimestamp` with an explicit reference instant (the source samples
`time.Now()` — the external clock collaborator — when none is supplied). -/
def ParseTimestamp (s : Str) (ref : GoTime) : Except Err GoTime :=
  if s = [] then .error .emptyInput
  else if s = lit "now" then .ok ref
  else
    match s with
    | [] => .error .emptyInput
    | c :: s1 =>
      if c = '@' then
        if s1 = [] then .error .malformedNumber else handleUnix s1
      else if c = '-' then
        match ParseTimespan s1 with
        | .error e => .error e
        | .ok d => .ok (addDur ref (w64 (-d)))
      else if c = '+' then
        match ParseTimespan s1 with
        | .error e => .error e
        | .ok d => .ok (addDur ref d)
      else if (lit " ago").isSuffixOf s then
        match ParseTimespan (s.take (s.length - 4)) with
        | .error e => .error e
        | .ok d => .ok (addDur ref (w64 (-d)))
      else if (lit " left").isSuffixOf s then
        match ParseTimespan (s.take (s.length - 5)) with
        | .error e => .error e
        | .ok d => .ok (addDur ref d)
      else
        match (if isLetterC c then handleToken s ref else none) with
        | some r => r
        | none =>
          if isDigitC c || isLetterC c then parseCivil s ref
          else .error .expectedTimestamp

/-! ### Supporting lemmas for the timespan parser -/



theorem length_dropWhile_le (p : Char → Bool) (l : Str) :
    (l.dropWhile p).length ≤ l.length := by
  induction l with
  | nil => simp
  | cons a t ih =>
    by_cases h : p a
    · simp only [List.dropWhile_cons, h, if_true, List.length_cons]
      omega
    · simp [List.dropWhile_cons, h]

theorem takeWhile_append_bar {p : Char → Bool} {c : Char} (hc : p c = false)
    (X B : Str) : (X ++ c :: B).takeWhile p = X.takeWhile p := by
  induction X with
  | nil => simp [List.takeWhile_cons, hc]
  | cons a t ih => by_cases h : p a <;> simp [List.takeWhile_cons, h, ih]

theorem dropWhile_append_bar {p : Char → Bool} {c : Char} (hc : p c = false)
    (X B : Str) : (X ++ c :: B).dropWhile p = X.dropWhile p ++ c :: B := by
  induction X with
  | nil => simp [List.dropWhile_cons, hc]
  | cons a t ih => by_cases h : p a <;> simp [List.dropWhile_cons, h, ih]

theorem readNum_append {X : Str} {n : Int} {r : Str} (B : Str)
    (h : readNum X = .ok (n, r)) : readNum (X ++ ' ' :: B) = .ok (n, r ++ ' ' :: B) := by
  unfold readNum at h ⊢
  rw [takeWhile_append_bar (by decide) X B, dropWhile_append_bar (by decide) X B]
  split at h
  · exact absurd h (by simp)
  next h1 =>
    split at h
    · exact absurd h (by simp)
    next h2 =>
      rw [if_neg h1, if_neg h2]
      simp only [Except.ok.injEq, Prod.mk.injEq] at h ⊢
      exact ⟨h.1, by rw [h.2]⟩

theorem readFrac_append {X : Str} {n : Int} {r : Str} (B : Str)
    (h : readFrac X = .ok (n, r)) : readFrac (X ++ ' ' :: B) = .ok (n, r ++ ' ' :: B) := by
  unfold readFrac at h ⊢
  rw [takeWhile_append_bar (by decide) X B, dropWhile_append_bar (by decide) X B]
  split at h
  · exact absurd h (by simp)
  next h1 =>
    rw [if_neg h1]
    simp only [Except.ok.injEq, Prod.mk.injEq] at h ⊢
    exact ⟨h.1, by rw [h.2]⟩

theorem readWord_append {X : Str} {w r : Str} (B : Str)
    (h : readWord X = (w, r)) : readWord (X ++ ' ' :: B) = (w, r ++ ' ' :: B) := by
  unfold readWord at h ⊢
  rw [takeWhile_append_bar (by decide) X B, dropWhile_append_bar (by decide) X B]
  simp_all



theorem readNum_rest {X : Str} {n : Int} {r : Str} (h : readNum X = .ok (n, r)) :
    r = X.dropWhile isDigitC := by
  unfold readNum at h
  split at h
  · exact absurd h (by simp)
  · split at h
    · exact absurd h (by simp)
    · simp only [Except.ok.injEq, Prod.mk.injEq] at h
      exact h.2.symm

theorem readFrac_rest {X : Str} {n : Int} {r : Str} (h : readFrac X = .ok (n, r)) :
    r = X.dropWhile isDigitC := by
  unfold readFrac at h
  split at h
  · exact absurd h (by simp)
  · simp only [Except.ok.injEq, Prod.mk.injEq] at h
    exact h.2.symm

/-- The first non-space character of `B` exists and is a digit. -/
def digitStart (B : Str) : Bool :=
  match B.dropWhile isSpaceC with
  | c :: _ => isDigitC c
  | [] => false

theorem spanNum_append {X : Str} {n : Int} {r : Str} (B : Str)
    (h : spanNum X = .ok (n, r)) : spanNum (X ++ ' ' :: B) = .ok (n, r ++ ' ' :: B) := by
  match X with
  | [] => exact absurd h (by simp [spanNum])
  | c :: xs =>
    have e1 : spanNum (c :: xs) =
        (if isDigitC c then readNum (c :: xs)
         else if c = '.' then .ok (0, c :: xs) else .error .malformedNumber) := rfl
    have e2 : spanNum (c :: (xs ++ ' ' :: B)) =
        (if isDigitC c then readNum (c :: (xs ++ ' ' :: B))
         else if c = '.' then .ok (0, c :: (xs ++ ' ' :: B))
         else .error .malformedNumber) := rfl
    rw [e1] at h
    rw [List.cons_append, e2]
    by_cases hd : isDigitC c
    · rw [if_pos hd] at h ⊢
      have := @readNum_append (c :: xs) _ _ B h
      rw [List.cons_append] at this
      exact this
    · rw [if_neg hd] at h ⊢
      by_cases hdot : c = '.'
      · rw [if_pos hdot] at h ⊢
        simp only [Except.ok.injEq, Prod.mk.injEq] at h
        rw [← h.1, ← h.2, List.cons_append]
      · rw [if_neg hdot] at h
        exact absurd h (by simp)

theorem spanFrac_append {X : Str} {n : Int} {r : Str} (B : Str)
    (h : spanFrac X = .ok (n, r)) : spanFrac (X ++ ' ' :: B) = .ok (n, r ++ ' ' :: B) := by
  unfold spanFrac at h ⊢
  split at h
  next s3 =>
    rw [List.cons_append]
    split
    next s3' heq' =>
      simp only [List.cons.injEq, true_and] at heq'
      rw [← heq']
      exact readFrac_append B h
    next hno => exact (hno _ rfl).elim
  next hno =>
    simp only [Except.ok.injEq, Prod.mk.injEq] at h
    rw [← h.1, ← h.2]
    split
    next s3' heq' =>
      exfalso
      match X, heq' with
      | [], heq' => simp at heq'
      | c :: xs, heq' =>
        rw [List.cons_append] at heq'
        simp only [List.cons.injEq] at heq'
        exact hno xs (by rw [heq'.1])
    · rfl

theorem spanGroup_inv {t : Str} {n ns u : Int} {r : Str}
    (h : spanGroup t = .ok (n, ns, u, r)) :
    ∃ s2 s4 w, spanNum t = .ok (n, s2) ∧ spanFrac s2 = .ok (ns, s4) ∧
      readWord (s4.dropWhile isSpaceC) = (w, r) ∧ spanUnit w = .ok u := by
  unfold spanGroup at h
  split at h
  · exact absurd h (by simp)
  next num s2 hnum =>
    split at h
    · exact absurd h (by simp)
    next nsec s4 hfrac =>
      split at h
      · exact absurd h (by simp)
      next uu hu =>
        simp only [Except.ok.injEq, Prod.mk.injEq] at h
        obtain ⟨h1, h2, h3, h4⟩ := h
        subst h1; subst h2; subst h3; subst h4
        exact ⟨s2, s4, _, hnum, hfrac, rfl, hu⟩

theorem spanGroup_mk {t s2 s4 w wr : Str} {n ns u : Int}
    (h1 : spanNum t = .ok (n, s2)) (h2 : spanFrac s2 = .ok (ns, s4))
    (h3 : readWord (s4.dropWhile isSpaceC) = (w, wr)) (h4 : spanUnit w = .ok u) :
    spanGroup t = .ok (n, ns, u, wr) := by
  unfold spanGroup
  simp only [h1, h2, h3, h4]

theorem readWord_rest {X w r : Str} (h : readWord X = (w, r)) :
    r = X.dropWhile (fun c => !isSpaceC c && !isDigitC c) := by
  unfold readWord at h
  simp only [Prod.mk.injEq] at h
  exact h.2.symm

theorem digit_not_space {c : Char} (h : isDigitC c = true) : isSpaceC c = false := by
  by_contra h'
  rw [Bool.not_eq_false] at h'
  have : c = ' ' := by simpa [isSpaceC] using h'
  subst this
  exact absurd h (by decide)

theorem spanFrac_length {s2 s4 : Str} {ns : Int} (h : spanFrac s2 = .ok (ns, s4)) :
    s4.length ≤ s2.length := by
  unfold spanFrac at h
  split at h
  next s3 =>
    have := readFrac_rest h
    rw [this]
    have := length_dropWhile_le isDigitC s3
    simp only [List.length_cons]
    omega
  next =>
    simp only [Except.ok.injEq, Prod.mk.injEq] at h
    rw [← h.2]

theorem spanNumFrac_length {t s2 s4 : Str} {n ns : Int}
    (h1 : spanNum t = .ok (n, s2)) (h2 : spanFrac s2 = .ok (ns, s4)) :
    s4.length < t.length := by
  match t with
  | [] => exact absurd h1 (by simp [spanNum])
  | c :: ct =>
    have e1 : spanNum (c :: ct) =
        (if isDigitC c then readNum (c :: ct)
         else if c = '.' then .ok (0, c :: ct) else .error .malformedNumber) := rfl
    rw [e1] at h1
    by_cases hd : isDigitC c
    · rw [if_pos hd] at h1
      have hr := readNum_rest h1
      have hs2 : s2.length ≤ ct.length := by
        rw [hr]
        have e : (c :: ct).dropWhile isDigitC = ct.dropWhile isDigitC := by
          simp [List.dropWhile_cons, hd]
        rw [e]
        exact length_dropWhile_le _ _
      have hs4 : s4.length ≤ s2.length := spanFrac_length h2
      simp only [List.length_cons]
      omega
    · rw [if_neg hd] at h1
      by_cases hdot : c = '.'
      · rw [if_pos hdot] at h1
        simp only [Except.ok.injEq, Prod.mk.injEq] at h1
        obtain ⟨-, h1⟩ := h1
        subst h1
        subst hdot
        have e2 : spanFrac ('.' :: ct) = readFrac ct := rfl
        rw [e2] at h2
        have hrest := readFrac_rest h2
        rw [hrest]
        have := length_dropWhile_le isDigitC ct
        simp only [List.length_cons]
        omega
      · rw [if_neg hdot] at h1
        exact absurd h1 (by simp)

theorem spanGroup_length {t : Str} {n ns u : Int} {r : Str}
    (h : spanGroup t = .ok (n, ns, u, r)) : r.length < t.length := by
  obtain ⟨s2, s4, w, hnum, hfrac, hword, -⟩ := spanGroup_inv h
  have h1 := spanNumFrac_length hnum hfrac
  have h2 := readWord_rest hword
  have h3 := length_dropWhile_le (fun c => !isSpaceC c && !isDigitC c) (s4.dropWhile isSpaceC)
  have h4 := length_dropWhile_le isSpaceC s4
  rw [h2]
  omega

theorem spanGroup_append {X B : Str} {n ns u : Int} {r : Str}
    (hB : digitStart B = true)
    (h : spanGroup X = .ok (n, ns, u, r)) :
    ∃ r', spanGroup (X ++ ' ' :: B) = .ok (n, ns, u, r') ∧
      r'.dropWhile isSpaceC = (r ++ ' ' :: B).dropWhile isSpaceC := by
  obtain ⟨s2, s4, w, hnum, hfrac, hword, hunit⟩ := spanGroup_inv h
  have hnum' := spanNum_append B hnum
  have hfrac' := spanFrac_append B hfrac
  rcases h5 : s4.dropWhile isSpaceC with _ | ⟨a, s5t⟩
  · -- unit-word position reached the end of X; the combined parse reads from B
    rw [h5] at hword
    have hword0 : readWord ([] : Str) = (([] : Str), ([] : Str)) := rfl
    rw [hword0] at hword
    simp only [Prod.mk.injEq] at hword
    obtain ⟨hw, hr⟩ := hword
    subst hw; subst hr
    have hu : u = Second := by
      have e : spanUnit ([] : Str) = .ok Second := rfl
      rw [e] at hunit
      simp only [Except.ok.injEq] at hunit
      exact hunit.symm
    subst hu
    rcases hBs : B.dropWhile isSpaceC with _ | ⟨b, rB⟩
    · rw [digitStart, hBs] at hB; exact absurd hB (by simp)
    · have hdig : isDigitC b = true := by
        have e : digitStart B = isDigitC b := by rw [digitStart, hBs]
        rw [e] at hB; exact hB
      have hnsp : isSpaceC b = false := digit_not_space hdig
      have hcomb : (s4 ++ ' ' :: B).dropWhile isSpaceC = b :: rB := by
        rw [List.dropWhile_append, h5]
        simp only [List.isEmpty_nil, if_true]
        rw [List.dropWhile_cons]
        simp only [isSpaceC, beq_self_eq_true, if_true]
        exact hBs
      have hword' : readWord (b :: rB) = ([], b :: rB) := by
        unfold readWord
        simp [List.takeWhile_cons, List.dropWhile_cons, hdig]
      refine ⟨b :: rB, ?_, ?_⟩
      · have hrw : readWord ((s4 ++ ' ' :: B).dropWhile isSpaceC) = ([], b :: rB) := by
          rw [hcomb]; exact hword'
        exact spanGroup_mk hnum' hfrac' hrw hunit
      · have e1 : (b :: rB).dropWhile isSpaceC = b :: rB := by
          rw [List.dropWhile_cons, hnsp]; simp
        have e2 : ((([] : Str)) ++ ' ' :: B).dropWhile isSpaceC = B.dropWhile isSpaceC := by
          simp [List.dropWhile_cons, isSpaceC]
        rw [e1, e2, hBs]
  · -- the unit word lies inside X
    have hcomb : (s4 ++ ' ' :: B).dropWhile isSpaceC = (a :: s5t) ++ ' ' :: B := by
      rw [List.dropWhile_append, h5]
      simp
    rw [h5] at hword
    have hword' := readWord_append B hword
    refine ⟨r ++ ' ' :: B, ?_, rfl⟩
    refine spanGroup_mk hnum' hfrac' ?_ hunit
    rw [hcomb]
    exact hword'



theorem w64_range (x : Int) : -two63 ≤ w64 x ∧ w64 x < two63 := by
  unfold w64 two63
  omega

theorem w64_id {x : Int} (h1 : -two63 ≤ x) (h2 : x < two63) : w64 x = x := by
  unfold two63 at h1 h2
  unfold w64 two63
  omega

theorem w64_emod (a : Int) : w64 a % (2 * two63) = a % (2 * two63) := by
  unfold w64
  rw [show (a + two63) % (2 * two63) - two63 = (a + two63) % (2 * two63) + -two63 by ring,
    Int.emod_add_emod]
  rw [show a + two63 + -two63 = a by ring]

theorem w64_cast (a : Int) :
    ((w64 a : Int) : ZMod 18446744073709551616) = (a : ZMod 18446744073709551616) := by
  rw [ZMod.intCast_eq_intCast_iff]
  have h := w64_emod a
  unfold Int.ModEq
  convert h using 2 <;> norm_num [two63]

theorem w64_inj {a b : Int}
    (h : (a : ZMod 18446744073709551616) = (b : ZMod 18446744073709551616)) :
    w64 a = w64 b := by
  rw [ZMod.intCast_eq_intCast_iff] at h
  unfold Int.ModEq at h
  unfold w64
  congr 1
  rw [Int.add_emod a, Int.add_emod b]
  congr 2

theorem spanStep_shift (d δ num nsec unit : Int) :
    spanStep (w64 (d + δ)) num nsec unit = w64 (spanStep d num nsec unit + δ) := by
  unfold spanStep
  by_cases h1 : nsec > 0
  · rw [if_pos h1, if_pos h1]
    by_cases h2 : unit ≥ Second
    · rw [if_pos h2, if_pos h2]
      apply w64_inj
      push_cast [w64_cast]
      ring
    · rw [if_neg h2, if_neg h2]
      apply w64_inj
      push_cast [w64_cast]
      ring
  · rw [if_neg h1, if_neg h1]
    apply w64_inj
    push_cast [w64_cast]
    ring

theorem spanStep_range (d num nsec unit : Int) :
    -two63 ≤ spanStep d num nsec unit ∧ spanStep d num nsec unit < two63 := by
  unfold spanStep
  split
  · split
    · exact w64_range _
    · exact w64_range _
  · exact w64_range _

theorem spanLoop_congr {X Y : Str} (hXY : X.dropWhile isSpaceC = Y.dropWhile isSpaceC)
    (f : Nat) (d : Int) (any : Bool) :
    spanLoop (f + 1) X d any = spanLoop (f + 1) Y d any := by
  unfold spanLoop
  rw [hXY]

theorem spanLoop_mono : ∀ f1 f2 : Nat, ∀ X : Str, ∀ d : Int, ∀ any : Bool,
    X.length < f1 → X.length < f2 → spanLoop f1 X d any = spanLoop f2 X d any := by
  intro f1
  induction f1 with
  | zero => intro f2 X d any h1 _; omega
  | succ g ih =>
    intro f2 X d any h1 h2
    match f2, h2 with
    | f2h + 1, h2 =>
      rcases hdw : X.dropWhile isSpaceC with _ | ⟨c, cs⟩
      · unfold spanLoop
        rw [hdw]
      · unfold spanLoop
        rw [hdw]
        rcases hg : spanGroup (c :: cs) with e | ⟨num, nsec, unit, rest⟩
        · simp only [hg]
        · simp only [hg]
          have hlen : rest.length < (c :: cs).length := spanGroup_length hg
          have hX : (c :: cs).length ≤ X.length := by
            rw [← hdw]
            exact length_dropWhile_le _ _
          simp only [List.length_cons] at hlen hX
          exact ih f2h rest _ true (by omega) (by omega)

theorem spanLoop_step {f : Nat} {X : Str} {c : Char} {cs : Str}
    {num nsec unit : Int} {rest : Str}
    (hdw : X.dropWhile isSpaceC = c :: cs)
    (hg : spanGroup (c :: cs) = .ok (num, nsec, unit, rest)) (d : Int) (any : Bool) :
    spanLoop (f + 1) X d any = spanLoop f rest (spanStep d num nsec unit) true := by
  conv_lhs => unfold spanLoop
  rw [hdw]
  dsimp only
  rw [hg]

theorem spanLoop_flag {f : Nat} {X : Str} {d r : Int}
    (h : spanLoop (f + 1) X d false = .ok r) : spanLoop (f + 1) X d true = .ok r := by
  unfold spanLoop at h ⊢
  rcases hdw : X.dropWhile isSpaceC with _ | ⟨c, cs⟩
  · rw [hdw] at h
    exact absurd h (by simp)
  · rw [hdw] at h
    exact h

theorem spanLoop_shift : ∀ f : Nat, ∀ X : Str, ∀ d δ : Int, ∀ any : Bool, ∀ r : Int,
    spanLoop f X d any = .ok r → spanLoop f X (w64 (d + δ)) any = .ok (w64 (r + δ)) := by
  intro f
  induction f with
  | zero => intro X d δ any r h; exact absurd h (by simp [spanLoop])
  | succ g ih =>
    intro X d δ any r h
    unfold spanLoop at h ⊢
    rcases hdw : X.dropWhile isSpaceC with _ | ⟨c, cs⟩
    · rw [hdw] at h
      cases any
      · exact absurd h (by simp)
      · dsimp only at h ⊢
        rw [if_pos rfl] at h ⊢
        injection h with h
        rw [h]
    · rw [hdw] at h
      dsimp only at h ⊢
      rcases hg : spanGroup (c :: cs) with e | ⟨num, nsec, unit, rest⟩
      · rw [hg] at h
        exact absurd h (by simp)
      · rw [hg] at h
        dsimp only at h ⊢
        rw [spanStep_shift]
        exact ih rest _ δ true r h

theorem spanLoop_range : ∀ f : Nat, ∀ X : Str, ∀ d : Int, ∀ any : Bool, ∀ r : Int,
    -two63 ≤ d → d < two63 → spanLoop f X d any = .ok r → -two63 ≤ r ∧ r < two63 := by
  intro f
  induction f with
  | zero => intro X d any r _ _ h; exact absurd h (by simp [spanLoop])
  | succ g ih =>
    intro X d any r hd1 hd2 h
    unfold spanLoop at h
    rcases hdw : X.dropWhile isSpaceC with _ | ⟨c, cs⟩
    · rw [hdw] at h
      cases any
      · exact absurd h (by simp)
      · dsimp only at h
        rw [if_pos rfl] at h
        injection h with h
        rw [← h]
        exact ⟨hd1, hd2⟩
    · rw [hdw] at h
      dsimp only at h
      rcases hg : spanGroup (c :: cs) with e | ⟨num, nsec, unit, rest⟩
      · rw [hg] at h
        exact absurd h (by simp)
      · rw [hg] at h
        dsimp only at h
        have hs := spanStep_range d num nsec unit
        exact ih rest _ true r hs.1 hs.2 h

theorem spanLoop_append {B : Str} (hB : digitStart B = true) :
    ∀ f : Nat, ∀ A : Str, ∀ d : Int, ∀ any : Bool, ∀ r : Int,
    A.length < f → spanLoop f A d any = .ok r →
    spanLoop (A.length + B.length + 2) (A ++ ' ' :: B) d any =
      spanLoop (B.length + 1) B r true := by
  intro f
  induction f with
  | zero => intro A d any r h1 _; omega
  | succ g ih =>
    intro A d any r h1 h2
    unfold spanLoop at h2
    rcases hdw : A.dropWhile isSpaceC with _ | ⟨c, cs⟩
    · rw [hdw] at h2
      cases any
      · exact absurd h2 (by simp)
      · dsimp only at h2
        rw [if_pos rfl] at h2
        injection h2 with h2
        have hAB : (A ++ ' ' :: B).dropWhile isSpaceC = B.dropWhile isSpaceC := by
          rw [List.dropWhile_append, hdw]
          simp [List.dropWhile_cons, isSpaceC]
        have e1 : A.length + B.length + 2 = (A.length + B.length + 1) + 1 := rfl
        rw [e1, spanLoop_congr hAB (A.length + B.length + 1) d true]
        rw [spanLoop_mono (A.length + B.length + 1 + 1) (B.length + 1) B d true
          (by omega) (by omega), h2]
    · rw [hdw] at h2
      dsimp only at h2
      rcases hg : spanGroup (c :: cs) with e | ⟨num, nsec, unit, rest⟩
      · rw [hg] at h2
        exact absurd h2 (by simp)
      · rw [hg] at h2
        dsimp only at h2
        have hlen : rest.length < (c :: cs).length := spanGroup_length hg
        have hXle : (c :: cs).length ≤ A.length := by
          rw [← hdw]
          exact length_dropWhile_le _ _
        obtain ⟨r', hg', hdrop⟩ := spanGroup_append hB hg
        have hAB : (A ++ ' ' :: B).dropWhile isSpaceC = c :: (cs ++ ' ' :: B) := by
          rw [List.dropWhile_append, hdw]
          simp
        rw [List.cons_append] at hg'
        have e1 : A.length + B.length + 2 = (A.length + B.length + 1) + 1 := rfl
        have step : spanLoop (A.length + B.length + 2) (A ++ ' ' :: B) d any =
            spanLoop (A.length + B.length + 1) r' (spanStep d num nsec unit) true := by
          rw [e1]
          exact spanLoop_step hAB hg' d any
        rw [step]
        have e2 : A.length + B.length + 1 = (A.length + B.length) + 1 := rfl
        rw [e2, spanLoop_congr hdrop (A.length + B.length) _ true]
        simp only [List.length_cons] at hlen hXle
        rw [spanLoop_mono ((A.length + B.length) + 1) (rest.length + B.length + 2)
          (rest ++ ' ' :: B) _ true
          (by simp only [List.length_append, List.length_cons]; omega)
          (by simp only [List.length_append, List.length_cons]; omega)]
        exact ih rest _ true r (by omega) h2

theorem parseTimespan_loop {X : Str} {x : Int} (h : ParseTimespan X = .ok x) :
    spanLoop (X.length + 1) X 0 false = .ok x := by
  unfold ParseTimespan at h
  split at h
  · exact absurd h (by simp)
  · split at h
    next h0 =>
      injection h with h
      subst h0
      rw [← h]
      decide
    · exact h

theorem ParseTimespan_append {A B : Str} {a b : Int}
    (hA : ParseTimespan A = .ok a) (hB : ParseTimespan B = .ok b)
    (hBd : digitStart B = true) :
    ParseTimespan (A ++ ' ' :: B) = .ok (w64 (a + b)) := by
  have hA' := parseTimespan_loop hA
  have hB' := parseTimespan_loop hB
  have hAne : A ≠ [] := by
    rintro rfl
    rw [ParseTimespan] at hA
    simp at hA
  have hcomb_ne : A ++ ' ' :: B ≠ [] := by simp
  have hcomb_n0 : A ++ ' ' :: B ≠ lit "0" := by
    intro hEq
    have hlen1 : A.length + (B.length + 1) = 1 := by
      have := congrArg List.length hEq
      simpa [List.length_append] using this
    exact hAne (List.length_eq_zero.mp (by omega))
  unfold ParseTimespan
  rw [if_neg hcomb_ne, if_neg hcomb_n0]
  have hlen : (A ++ ' ' :: B).length + 1 = A.length + B.length + 2 := by
    simp only [List.length_append, List.length_cons]
    omega
  rw [hlen]
  rw [spanLoop_append hBd (A.length + 1) A 0 false a (by omega) hA']
  have hBtrue : spanLoop (B.length + 1) B 0 true = .ok b := spanLoop_flag hB'
  have hrange := spanLoop_range (A.length + 1) A 0 false a
    (by unfold two63; omega) (by unfold two63; omega) hA'
  have ha_id : w64 (0 + a) = a := by
    rw [zero_add]
    exact w64_id hrange.1 hrange.2
  have hsh := spanLoop_shift (B.length + 1) B 0 a true b hBtrue
  rw [ha_id] at hsh
  rw [hsh, Int.add_comm a b]


/-! ### Claim theorems: the timespan parser -/

/-- C1 counterexample: `"5"` and `".5m"` are timespans with disjoint units
(seconds by default, minutes) on which `ParseTimespan` succeeds, yet parsing
their space-joined concatenation `"5 .5m"` fails (the stray `.` is swept into
the unit word), refuting the claim that the concatenation always succeeds and
sums. -/
theorem C1_counterexample :
    ParseTimespan (lit "5") = .ok 5000000000 ∧
    ParseTimespan (lit ".5m") = .ok 30000000000 ∧
    lit "5" ++ ' ' :: lit ".5m" = lit "5 .5m" ∧
    ParseTimespan (lit "5 .5m") = .error .unknownUnit :=
  ⟨by decide, by decide, by decide, by decide⟩

/-- C1 (amended): for any two timespan strings `A` and `B` on which
`ParseTimespan` succeeds — provided `B` starts (after optional spaces) with a
digit rather than a decimal point — `ParseTimespan (A ++ " " ++ B)` succeeds
and equals the 64-bit (wrapping) sum of the two results; group order is
irrelevant (`"300ms20s"` = `"20s300ms"`), and `"2h30min"` is 9000 seconds. -/
theorem C1_amended :
    (∀ A B : Str, ∀ a b : Int, ParseTimespan A = .ok a → ParseTimespan B = .ok b →
      digitStart B = true → ParseTimespan (A ++ ' ' :: B) = .ok (w64 (a + b))) ∧
    ParseTimespan (lit "300ms20s") = ParseTimespan (lit "20s300ms") ∧
    ParseTimespan (lit "2h30min") = .ok (9000 * Second) :=
  ⟨fun _ _ _ _ hA hB hBd => ParseTimespan_append hA hB hBd, by decide, by decide⟩

theorem C1_amended_witness :
    ParseTimespan (lit "2h") = .ok 7200000000000 ∧
    ParseTimespan (lit "30min") = .ok 1800000000000 ∧
    digitStart (lit "30min") = true ∧
    ParseTimespan (lit "2h" ++ ' ' :: lit "30min") =
      .ok (w64 (7200000000000 + 1800000000000)) :=
  ⟨by decide, by decide, by decide,
    C1_amended.1 (lit "2h") (lit "30min") 7200000000000 1800000000000
      (by decide) (by decide) (by decide)⟩

/-- C2: for every input string (and, for `ParseTimestamp`, every reference
instant) the parser terminates with either a value or an error drawn from the
enumerated error kinds; the embedding is total, so no input can crash it. -/
theorem C2_totality :
    (∀ s : Str, (∃ d, ParseTimespan s = .ok d) ∨ (∃ e, ParseTimespan s = .error e)) ∧
    (∀ s : Str, ∀ ref : GoTime,
      (∃ t, ParseTimestamp s ref = .ok t) ∨ (∃ e, ParseTimestamp s ref = .error e)) := by
  constructor
  · intro s
    rcases h : ParseTimespan s with e | d
    · exact .inr ⟨e, rfl⟩
    · exact .inl ⟨d, rfl⟩
  · intro s ref
    rcases h : ParseTimestamp s ref with e | t
    · exact .inr ⟨e, rfl⟩
    · exact .inl ⟨t, rfl⟩

/-- C3: the fraction reader consumes the maximal digit run, fails with the
malformed-number error exactly when the run is empty, and otherwise keeps only
the first 9 digits (dropping extras without rounding) zero-padded to 9 digits;
consequently `ParseTimespan "1.1234567891s" = ParseTimespan "1.123456789s"`. -/
theorem C3_readFrac :
    (∀ u : Str, readFrac u = .error .malformedNumber ↔ u.takeWhile isDigitC = []) ∧
    (∀ u : Str, u.takeWhile isDigitC ≠ [] →
      readFrac u = .ok (digitsVal ((u.takeWhile isDigitC).take 9) *
        10 ^ (9 - min 9 (u.takeWhile isDigitC).length), u.dropWhile isDigitC)) ∧
    ParseTimespan (lit "1.1234567891s") = ParseTimespan (lit "1.123456789s") := by
  refine ⟨?_, ?_, by decide⟩
  · intro u
    by_cases hc : u.takeWhile isDigitC = []
    · simp [readFrac, hc]
    · simp [readFrac, hc]
  · intro u h
    unfold readFrac
    rw [if_neg h, List.length_take]

theorem C3_readFrac_witness :
    readFrac (lit "1234567891x") =
      .ok (digitsVal (((lit "1234567891x").takeWhile isDigitC).take 9) *
        10 ^ (9 - min 9 ((lit "1234567891x").takeWhile isDigitC).length),
        (lit "1234567891x").dropWhile isDigitC) :=
  C3_readFrac.2.1 (lit "1234567891x") (by decide)

/-- C9 counterexample: `"1.2.3s"` and `"1 .5s"` do fail, but with the
unknown-unit error (the stray dot is consumed into the unit word), not with
`MalformedNumber` as claimed. -/
theorem C9_counterexample :
    ParseTimespan (lit "1.2.3s") = .error .unknownUnit ∧
    ParseTimespan (lit "1 .5s") = .error .unknownUnit ∧
    Err.unknownUnit ≠ Err.malformedNumber :=
  ⟨by decide, by decide, by decide⟩

/-- C9 (amended): a misplaced decimal point always makes `ParseTimespan`
fail, but the error kind depends on position: a dot where fraction digits are
required (no digit immediately after it) fails with `MalformedNumber`
(`"1..5s"`, `". 5s"`), while a dot at unit position is swept into the unit
word, which never matches the unit table, failing with `UnknownUnit`
(`"1.2.3s"`, `"1 .5s"`). -/
theorem C9_amended :
    (∀ rest : Str, spanUnit ('.' :: rest) = .error .unknownUnit) ∧
    ParseTimespan (lit "1..5s") = .error .malformedNumber ∧
    ParseTimespan (lit ". 5s") = .error .malformedNumber ∧
    ParseTimespan (lit "1.2.3s") = .error .unknownUnit ∧
    ParseTimespan (lit "1 .5s") = .error .unknownUnit := by
  refine ⟨?_, by decide, by decide, by decide, by decide⟩
  intro rest
  simp [spanUnit, unitOf, lit]


theorem civilFinish_wd {w : Int} {fd : Bool} {y m d hh mm ss ns : Int} {l : Loc}
    {rest : Str} {t : GoTime}
    (h : civilFinish (some w) fd y m d hh mm ss ns l rest = .ok t) :
    weekdayOf t = w := by
  unfold civilFinish at h
  split at h
  · exact absurd h (by simp)
  · split at h
    · exact absurd h (by simp)
    · dsimp only at h
      split at h
      · exact absurd h (by simp)
      case _ hwd =>
        simp only [Except.ok.injEq] at h
        rw [← h]
        push_neg at hwd
        exact hwd

theorem civilTime_wd {w : Int} {fc fd : Bool} {y m d : Int} {s3 : Str}
    {ref : GoTime} {t : GoTime}
    (h : civilTime (some w) fc fd y m d s3 ref = .ok t) : weekdayOf t = w := by
  unfold civilTime at h
  split at h
  case _ c cs =>
    split at h
    · split at h
      · exact absurd h (by simp)
      · split at h
        · exact absurd h (by simp)
        case _ hh mm ss ns s4 htime =>
          split at h
          case _ c2 cs2 =>
            split at h
            · split at h
              · exact absurd h (by simp)
              case _ l s6 htz => exact civilFinish_wd h
            · exact civilFinish_wd h
          case _ => exact civilFinish_wd h
    · split at h
      · exact absurd h (by simp)
      case _ l s6 htz => exact civilFinish_wd h
  case _ => exact civilFinish_wd h

theorem civilDate_wd {w : Int} {s1 : Str} {ref : GoTime} {t : GoTime}
    (h : civilDate (some w) s1 ref = .ok t) : weekdayOf t = w := by
  unfold civilDate at h
  split at h
  · split at h
    · exact absurd h (by simp)
    case _ y m d fy s2 hdate =>
      split at h
      case _ s3 =>
        split at h
        · exact civilTime_wd h
        · exact absurd h (by simp)
      case _ => exact civilTime_wd h
  · exact civilTime_wd h

theorem parseCivil_wd {s : Str} {ref : GoTime} {w : Int} {r : Str} {t : GoTime}
    (hok : parseCivil s ref = .ok t) (hwd : handleWeekday s = some (w, r)) :
    weekdayOf t = w := by
  unfold parseCivil at hok
  rw [hwd] at hok
  exact civilDate_wd hok

theorem readWord_cons_of_pred {c : Char} {cs : Str}
    (hc : (!isSpaceC c && !isDigitC c) = true) :
    (readWord (c :: cs)).1 = c :: (cs.takeWhile (fun x => !isSpaceC x && !isDigitC x)) := by
  unfold readWord
  simp only [List.takeWhile_cons, hc, if_true]

theorem handleWeekday_digit_none {c : Char} {cs : Str} (hc : isDigitC c = true) :
    handleWeekday (c :: cs) = none := by
  have hw : (readWord (c :: cs)).1 = [] := by
    unfold readWord
    simp only [List.takeWhile_cons, hc]
    simp
  unfold handleWeekday
  rw [hw]
  simp

theorem handleWeekday_map {s : Str} {w : Int} {r : Str}
    (h : handleWeekday s = some (w, r)) :
    (readWord s).1 ≠ [] ∧
    ((readWord s).1.map toLowerC = lit "mon" ∨ (readWord s).1.map toLowerC = lit "monday" ∨
     (readWord s).1.map toLowerC = lit "tue" ∨ (readWord s).1.map toLowerC = lit "tuesday" ∨
     (readWord s).1.map toLowerC = lit "wed" ∨ (readWord s).1.map toLowerC = lit "wednesday" ∨
     (readWord s).1.map toLowerC = lit "thu" ∨ (readWord s).1.map toLowerC = lit "thursday" ∨
     (readWord s).1.map toLowerC = lit "fri" ∨ (readWord s).1.map toLowerC = lit "friday" ∨
     (readWord s).1.map toLowerC = lit "sat" ∨ (readWord s).1.map toLowerC = lit "saturday" ∨
     (readWord s).1.map toLowerC = lit "sun" ∨ (readWord s).1.map toLowerC = lit "sunday") := by
  unfold handleWeekday at h
  split at h
  · exact absurd h (by simp)
  case _ hne =>
    refine ⟨hne, ?_⟩
    split at h
    case _ hc => tauto
    split at h
    case _ hc => tauto
    split at h
    case _ hc => tauto
    split at h
    case _ hc => tauto
    split at h
    case _ hc => tauto
    split at h
    case _ hc => tauto
    split at h
    case _ hc => tauto
    exact absurd h (by simp)

end Systemdtime

namespace Systemdtime

theorem isDigitC_toNat {c : Char} (h : isDigitC c = true) :
    48 ≤ c.toNat ∧ c.toNat ≤ 57 := by
  simp only [isDigitC, Bool.and_eq_true, decide_eq_true_eq] at h
  obtain ⟨h1, h2⟩ := h
  rw [Char.le_def] at h1 h2
  rw [UInt32.le_def] at h1 h2
  exact ⟨h1, h2⟩

theorem takeWhile_nil_of_head {p : Char → Bool} {l : Str}
    (h : ∀ c, l.head? = some c → p c = false) : l.takeWhile p = [] := by
  cases l with
  | nil => rfl
  | cons x xs =>
    rw [List.takeWhile_cons, h x rfl]
    simp

theorem dropWhile_all_of_head {p : Char → Bool} {l : Str}
    (h : ∀ c, l.head? = some c → p c = false) : l.dropWhile p = l := by
  cases l with
  | nil => rfl
  | cons x xs =>
    rw [List.dropWhile_cons, h x rfl]
    simp

theorem readNum_two_digits {a b : Char} {rest : Str}
    (ha : isDigitC a = true) (hb : isDigitC b = true)
    (hr : ∀ c, rest.head? = some c → isDigitC c = false) :
    readNum (a :: b :: rest) = .ok (digitsVal [a, b], rest) ∧ digitsVal [a, b] ≤ 99 := by
  have htw : (a :: b :: rest).takeWhile isDigitC = [a, b] := by
    rw [List.takeWhile_cons, ha]
    simp only [if_true]
    rw [List.takeWhile_cons, hb]
    simp only [if_true]
    rw [takeWhile_nil_of_head hr]
  have hdrop : (a :: b :: rest).dropWhile isDigitC = rest := by
    rw [List.dropWhile_cons, ha]
    simp only [if_true]
    rw [List.dropWhile_cons, hb]
    simp only [if_true]
    exact dropWhile_all_of_head hr
  have hna := isDigitC_toNat ha
  have hnb := isDigitC_toNat hb
  have hdv : digitsVal [a, b] = ((a.toNat : Int) - 48) * 10 + ((b.toNat : Int) - 48) := by
    simp only [digitsVal, List.foldl]
    ring
  have hle : digitsVal [a, b] ≤ 99 := by
    rw [hdv]
    omega
  refine ⟨?_, hle⟩
  unfold readNum
  rw [htw, hdrop]
  rw [if_neg (by simp), if_neg (by unfold int64Max; omega)]

/-- C4: a date whose year token has exactly 2 digits resolves the year by
adding 2000 when the value is at most 68 and 1900 otherwise, and such a date
never sets the full-year flag; `"00-01-01"` resolves to year 2000 and
`"69-01-01"` to year 1969 (reference 2009-11-10 23:00:00 UTC). -/
theorem C4_two_digit_year :
    (∀ (a b : Char) (rest : Str) (y m d : Int) (fy : Bool) (r : Str),
      isDigitC a = true → isDigitC b = true →
      (∀ c, rest.head? = some c → isDigitC c = false) →
      handleDate (a :: b :: rest) = .ok (y, m, d, fy, r) →
      fy = false ∧
        y = digitsVal [a, b] + (if digitsVal [a, b] ≤ 68 then 2000 else 1900)) ∧
    (∃ t, ParseTimestamp (lit "00-01-01") ⟨1257894000000000000, .utc⟩ = .ok t ∧
      yearOf t = 2000) ∧
    (∃ t, ParseTimestamp (lit "69-01-01") ⟨1257894000000000000, .utc⟩ = .ok t ∧
      yearOf t = 1969) := by
  refine ⟨?_, ⟨⟨946684800000000000, .utc⟩, by decide, by decide⟩,
    ⟨⟨-31536000000000000, .utc⟩, by decide, by decide⟩⟩
  intro a b rest y m d fy r ha hb hrest h
  obtain ⟨hread, hle⟩ := readNum_two_digits ha hb hrest
  unfold handleDate at h
  rw [hread] at h
  dsimp only at h
  split at h
  case _ s2 =>
    split at h
    · exact absurd h (by simp)
    case _ month s3 hm =>
      split at h
      · exact absurd h (by simp)
      · split at h
        case _ s4 =>
          split at h
          · exact absurd h (by simp)
          case _ day s5 hd =>
            split at h
            · exact absurd h (by simp)
            · simp only [Except.ok.injEq, Prod.mk.injEq] at h
              obtain ⟨hy, -, -, hfy, -⟩ := h
              constructor
              · rw [← hfy]
                simp only [decide_eq_false_iff_not]
                omega
              · rw [← hy]
                unfold dateYear
                rw [if_neg (by omega)]
                split
                · ring
                · ring
        case _ => exact absurd h (by simp)
  case _ => exact absurd h (by simp)

theorem digitsVal_nonneg_aux (l : Str) (acc : Int)
    (h : ∀ c ∈ l, isDigitC c = true) (hacc : 0 ≤ acc) :
    0 ≤ l.foldl (fun a c => a * 10 + ((c.toNat : Int) - 48)) acc := by
  induction l generalizing acc with
  | nil => exact hacc
  | cons x xs ih =>
    simp only [List.foldl_cons]
    have hx := isDigitC_toNat (h x (by simp))
    refine ih (acc * 10 + ((x.toNat : Int) - 48)) ?_ (by omega)
    intro c hc
    exact h c (by simp [hc])

theorem readNum_nonneg {u : Str} {n : Int} {r : Str}
    (h : readNum u = .ok (n, r)) : 0 ≤ n := by
  unfold readNum at h
  split at h
  · exact absurd h (by simp)
  · split at h
    · exact absurd h (by simp)
    · simp only [Except.ok.injEq, Prod.mk.injEq] at h
      rw [← h.1]
      exact digitsVal_nonneg_aux _ 0
        (fun c hc => List.mem_takeWhile_imp hc) le_rfl

theorem handleTime_bounds {u : Str} {hh mm ss ns : Int} {r : Str}
    (h : handleTime u = .ok (hh, mm, ss, ns, r)) :
    0 ≤ hh ∧ hh ≤ 23 ∧ 0 ≤ mm ∧ mm ≤ 59 ∧ 0 ≤ ss ∧ ss ≤ 59 := by
  unfold handleTime at h
  split at h
  · exact absurd h (by simp)
  · split at h
    · exact absurd h (by simp)
    case _ hour s1 hread =>
      have hh0 := readNum_nonneg hread
      split at h
      · exact absurd h (by simp)
      case _ hhle =>
        split at h
        case _ s2 =>
          split at h
          · exact absurd h (by simp)
          case _ minute s3 hread2 =>
            have hm0 := readNum_nonneg hread2
            split at h
            · exact absurd h (by simp)
            case _ hmle =>
              split at h
              case _ s4 =>
                split at h
                · exact absurd h (by simp)
                case _ sec s5 hread3 =>
                  have hs0 := readNum_nonneg hread3
                  split at h
                  · exact absurd h (by simp)
                  case _ hsle =>
                    split at h
                    case _ s6 =>
                      split at h
                      · exact absurd h (by simp)
                      case _ nsv s7 hfrac =>
                        simp only [Except.ok.injEq, Prod.mk.injEq] at h
                        obtain ⟨h1, h2, h3, -, -⟩ := h
                        subst h1; subst h2; subst h3
                        omega
                    case _ =>
                      simp only [Except.ok.injEq, Prod.mk.injEq] at h
                      obtain ⟨h1, h2, h3, -, -⟩ := h
                      subst h1; subst h2; subst h3
                      omega
              case _ =>
                simp only [Except.ok.injEq, Prod.mk.injEq] at h
                obtain ⟨h1, h2, h3, -, -⟩ := h
                subst h1; subst h2; subst h3
                omega
        case _ =>
          simp only [Except.ok.injEq, Prod.mk.injEq] at h
          obtain ⟨h1, h2, h3, -, -⟩ := h
          subst h1; subst h2; subst h3
          omega

theorem handleDate_bounds {u : Str} {y m d : Int} {fy : Bool} {r : Str}
    (h : handleDate u = .ok (y, m, d, fy, r)) :
    1 ≤ m ∧ m ≤ 12 ∧ 1 ≤ d ∧ d ≤ 31 := by
  unfold handleDate at h
  split at h
  · exact absurd h (by simp)
  · split at h
    · exact absurd h (by simp)
    case _ year0 s1 hread =>
      split at h
      case _ s2 =>
        split at h
        · exact absurd h (by simp)
        case _ month s3 hread2 =>
          split at h
          · exact absurd h (by simp)
          case _ hmr =>
            split at h
            case _ s4 =>
              split at h
              · exact absurd h (by simp)
              case _ day s5 hread3 =>
                split at h
                · exact absurd h (by simp)
                case _ hdr =>
                  simp only [Except.ok.injEq, Prod.mk.injEq] at h
                  obtain ⟨-, h2, h3, -, -⟩ := h
                  subst h2; subst h3
                  omega
            case _ => exact absurd h (by simp)
      case _ => exact absurd h (by simp)

/-- The reference instant 2009-11-10 23:00:00 UTC used throughout the
repository's tests. -/
def ref2009 : GoTime := ⟨1257894000000000000, .utc⟩

/-- C7: the time and date sub-parsers only ever yield fields inside their
generic ranges (hour 0–23, minute/second 0–59, month 1–12, day 1–31);
out-of-range fields are rejected with the calendar-field error
(`"24:00:00"`, `"18:60:00"`), while the day is checked only against the
generic maximum 31 with no month-length or leap-year cross-check, so
`"2009-02-30"` is accepted (and normalized to March 2 by the date
construction). -/
theorem C7_field_ranges :
    (∀ (u : Str) (hh mm ss ns : Int) (r : Str),
      handleTime u = .ok (hh, mm, ss, ns, r) →
      0 ≤ hh ∧ hh ≤ 23 ∧ 0 ≤ mm ∧ mm ≤ 59 ∧ 0 ≤ ss ∧ ss ≤ 59) ∧
    (∀ (u : Str) (y m d : Int) (fy : Bool) (r : Str),
      handleDate u = .ok (y, m, d, fy, r) →
      1 ≤ m ∧ m ≤ 12 ∧ 1 ≤ d ∧ d ≤ 31) ∧
    ParseTimestamp (lit "24:00:00") ref2009 = .error .fieldOutOfRange ∧
    ParseTimestamp (lit "18:60:00") ref2009 = .error .fieldOutOfRange ∧
    ParseTimestamp (lit "2009-02-30") ref2009 = .ok (timeDate 2009 2 30 0 0 0 0 .utc) ∧
    timeDate 2009 2 30 0 0 0 0 .utc = timeDate 2009 3 2 0 0 0 0 .utc :=
  ⟨fun _ _ _ _ _ _ h => handleTime_bounds h,
   fun _ _ _ _ _ _ h => handleDate_bounds h,
   by decide, by decide, by decide, by decide⟩

theorem C7_witness :
    (0 ≤ (18 : Int) ∧ (18 : Int) ≤ 23 ∧ 0 ≤ (15 : Int) ∧ (15 : Int) ≤ 59 ∧
      0 ≤ (22 : Int) ∧ (22 : Int) ≤ 59) ∧
    (1 ≤ (2 : Int) ∧ (2 : Int) ≤ 12 ∧ 1 ≤ (30 : Int) ∧ (30 : Int) ≤ 31) :=
  ⟨C7_field_ranges.1 (lit "18:15:22") 18 15 22 0 [] (by decide),
   C7_field_ranges.2.1 (lit "2009-02-30") 2009 2 30 true [] (by decide)⟩

theorem spanHead {s : Str} {d : Int} (h : ParseTimespan s = .ok d) :
    ∃ c r, s = c :: r ∧ (isDigitC c = true ∨ c = '.' ∨ c = ' ') := by
  match s with
  | [] => exact absurd h (by simp [ParseTimespan])
  | c :: r =>
    refine ⟨c, r, rfl, ?_⟩
    by_contra hc
    push_neg at hc
    obtain ⟨h1, h2, h3⟩ := hc
    have h1' : isDigitC c = false := by
      cases hx : isDigitC c
      · rfl
      · exact absurd hx h1
    have hne : (c :: r : Str) ≠ [] := by simp
    by_cases h0 : (c :: r : Str) = lit "0"
    · have : c = '0' := by
        have := congrArg List.head? h0
        simpa [lit] using this
      subst this
      exact absurd h1' (by decide)
    · unfold ParseTimespan at h
      rw [if_neg hne, if_neg h0] at h
      have hsp : isSpaceC c = false := by
        simp only [isSpaceC, beq_eq_false_iff_ne, ne_eq]
        exact h3
      have hdw : (c :: r).dropWhile isSpaceC = c :: r := by
        rw [List.dropWhile_cons, hsp]
        simp
      have hsn : spanNum (c :: r) = .error .malformedNumber := by
        unfold spanNum
        dsimp only
        rw [if_neg (by simp [h1']), if_neg h2]
      have hsg : spanGroup (c :: r) = .error .malformedNumber := by
        unfold spanGroup
        rw [hsn]
      unfold spanLoop at h
      rw [hdw] at h
      dsimp only at h
      rw [hsg] at h
      exact absurd h (by simp)

theorem spanHeadFacts {c : Char} (h : isDigitC c = true ∨ c = '.' ∨ c = ' ') :
    c ≠ '@' ∧ c ≠ '+' ∧ c ≠ '-' := by
  rcases h with h | h | h
  · refine ⟨?_, ?_, ?_⟩ <;> (rintro rfl; exact absurd h (by decide))
  · subst h; exact ⟨by decide, by decide, by decide⟩
  · subst h; exact ⟨by decide, by decide, by decide⟩

/-- C8 counterexample: the timespan
`"9223372036854775807ns 1ns"` wraps to `-2^63`; on it the `"-"` form does not
equal the reference minus the duration (the negation itself wraps), refuting
the claim's unqualified `ref − d` identity. -/
theorem C8_counterexample :
    ParseTimespan (lit "9223372036854775807ns 1ns") = .ok (-two63) ∧
    ParseTimestamp ('-' :: lit "9223372036854775807ns 1ns") ⟨0, .utc⟩ =
      .ok ⟨-two63, .utc⟩ ∧
    (⟨-two63, .utc⟩ : GoTime) ≠ ⟨0 - (-two63), .utc⟩ :=
  ⟨by decide, by decide, by decide⟩

/-- C8 (amended): for every reference instant and every timespan string `w`
parsing to duration `d`: `"+w"` and `"w left"` yield the reference shifted by
`d`, while `"-w"` and `"w ago"` yield it shifted by the 64-bit wrapping
negation of `d` — which equals the mathematical `−d` (so `ref − d`) whenever
`d ≠ −2^63`. -/
theorem C8_relative :
    ∀ (ref : GoTime) (w : Str) (d : Int), ParseTimespan w = .ok d →
      ParseTimestamp ('+' :: w) ref = .ok (addDur ref d) ∧
      ParseTimestamp (w ++ lit " left") ref = .ok (addDur ref d) ∧
      ParseTimestamp ('-' :: w) ref = .ok (addDur ref (w64 (-d))) ∧
      ParseTimestamp (w ++ lit " ago") ref = .ok (addDur ref (w64 (-d))) ∧
      (d ≠ -two63 → w64 (-d) = -d) := by
  intro ref w d hw
  obtain ⟨c, wr, hwc, hhead⟩ := spanHead hw
  obtain ⟨hat, hplus, hminus⟩ := spanHeadFacts hhead
  have hrange := spanLoop_range (w.length + 1) w 0 false d
    (by unfold two63; omega) (by unfold two63; omega) (parseTimespan_loop hw)
  refine ⟨?_, ?_, ?_, ?_, ?_⟩
  · unfold ParseTimestamp
    rw [if_neg (by simp), if_neg (by simp [lit])]
    dsimp only
    rw [if_neg (by decide), if_neg (by decide), if_pos rfl, hw]
  · -- "w left"
    subst hwc
    rw [List.cons_append]
    unfold ParseTimestamp
    rw [if_neg (by simp)]
    rw [if_neg ?hnotnow]
    case hnotnow =>
      intro hEq
      have := congrArg List.length hEq
      simp [lit, List.length_append] at this
    dsimp only
    rw [if_neg hat, if_neg hminus, if_neg hplus]
    rw [if_neg ?hnotago]
    case hnotago =>
      intro hsuf
      rw [List.isSuffixOf_iff_suffix] at hsuf
      obtain ⟨t, ht⟩ := hsuf
      have := congrArg List.getLast? ht
      rw [← List.cons_append, List.getLast?_append, List.getLast?_append] at this
      simp [lit] at this
    rw [if_pos ?hleft]
    case hleft =>
      rw [List.isSuffixOf_iff_suffix, ← List.cons_append]
      exact List.suffix_append _ _
    rw [show (c :: (wr ++ lit " left")).length - 5 = (c :: wr).length by
      simp [lit, List.length_append]]
    rw [← List.cons_append, List.take_left, hw]
  · unfold ParseTimestamp
    rw [if_neg (by simp), if_neg (by simp [lit])]
    dsimp only
    rw [if_neg (by decide), if_pos rfl, hw]
  · -- "w ago"
    subst hwc
    rw [List.cons_append]
    unfold ParseTimestamp
    rw [if_neg (by simp)]
    rw [if_neg ?hnotnow2]
    case hnotnow2 =>
      intro hEq
      have := congrArg List.length hEq
      simp [lit, List.length_append] at this
    dsimp only
    rw [if_neg hat, if_neg hminus, if_neg hplus]
    rw [if_pos ?hago]
    case hago =>
      rw [List.isSuffixOf_iff_suffix, ← List.cons_append]
      exact List.suffix_append _ _
    rw [show (c :: (wr ++ lit " ago")).length - 4 = (c :: wr).length by
      simp [lit, List.length_append]]
    rw [← List.cons_append, List.take_left, hw]
  · intro hd
    apply w64_id
    · unfold two63 at hrange ⊢
      omega
    · unfold two63 at hrange hd ⊢
      omega

theorem C8_witness :
    ParseTimestamp ('+' :: lit "5s") ref2009 = .ok (addDur ref2009 5000000000) ∧
    ParseTimestamp (lit "5s" ++ lit " left") ref2009 = .ok (addDur ref2009 5000000000) ∧
    ParseTimestamp ('-' :: lit "5s") ref2009 = .ok (addDur ref2009 (w64 (-5000000000))) ∧
    ParseTimestamp (lit "5s" ++ lit " ago") ref2009 = .ok (addDur ref2009 (w64 (-5000000000))) ∧
    ((5000000000 : Int) ≠ -two63 → w64 (-(5000000000 : Int)) = -(5000000000 : Int)) :=
  C8_relative ref2009 (lit "5s") 5000000000 (by decide)

theorem readWord_ne_nil {s : Str} (h : (readWord s).1 ≠ []) :
    ∃ c cs, s = c :: cs ∧ (!isSpaceC c && !isDigitC c) = true ∧
      (readWord s).1 = c :: cs.takeWhile (fun x => !isSpaceC x && !isDigitC x) := by
  match s with
  | [] => exact absurd rfl h
  | c :: cs =>
    by_cases hp : (!isSpaceC c && !isDigitC c) = true
    · exact ⟨c, cs, rfl, hp, by unfold readWord; simp [List.takeWhile_cons, hp]⟩
    · exfalso
      apply h
      unfold readWord
      simp only [List.takeWhile_cons]
      rw [if_neg hp]

theorem handleWeekday_head {s : Str} {w : Int} {r : Str}
    (h : handleWeekday s = some (w, r)) :
    ∃ c cs, s = c :: cs ∧
      (toLowerC c = 'm' ∨ toLowerC c = 't' ∨ toLowerC c = 'w' ∨
       toLowerC c = 'f' ∨ toLowerC c = 's') := by
  obtain ⟨hne, hmem⟩ := handleWeekday_map h
  obtain ⟨c, cs, hs, hpred, hword⟩ := readWord_ne_nil hne
  refine ⟨c, cs, hs, ?_⟩
  rw [hword] at hmem
  simp only [List.map_cons, lit] at hmem
  rcases hmem with hc|hc|hc|hc|hc|hc|hc|hc|hc|hc|hc|hc|hc|hc <;>
    (simp at hc; tauto)

theorem weekday_head_facts {c : Char}
    (h : toLowerC c = 'm' ∨ toLowerC c = 't' ∨ toLowerC c = 'w' ∨
      toLowerC c = 'f' ∨ toLowerC c = 's') :
    isDigitC c = false ∧ c ≠ '.' ∧ c ≠ ' ' ∧ c ≠ '@' ∧ c ≠ '+' ∧ c ≠ '-' := by
  unfold toLowerC at h
  by_cases hr : 'A' ≤ c ∧ c ≤ 'Z'
  · have h65 : 65 ≤ c.toNat := by
      have := hr.1
      rw [Char.le_def] at this
      rw [UInt32.le_def] at this
      exact this
    refine ⟨?_, ?_, ?_, ?_, ?_, ?_⟩
    · cases hx : isDigitC c
      · rfl
      · have := isDigitC_toNat hx
        omega
    · rintro rfl; exact absurd h65 (by decide)
    · rintro rfl; exact absurd h65 (by decide)
    · rintro rfl; exact absurd h65 (by decide)
    · rintro rfl; exact absurd h65 (by decide)
    · rintro rfl; exact absurd h65 (by decide)
  · rw [if_neg hr] at h
    rcases h with rfl | rfl | rfl | rfl | rfl <;> exact ⟨by decide, by decide,
      by decide, by decide, by decide, by decide⟩

theorem handleToken_of_weekday {s : Str} {w : Int} {r : Str} (ref : GoTime)
    (hwd : handleWeekday s = some (w, r)) : handleToken s ref = none := by
  have hfalse : ∀ tok : Str,
      tok = lit "today" ∨ tok = lit "yesterday" ∨ tok = lit "tomorrow" →
      tok.isPrefixOf s = false := by
    intro tok htok
    by_contra hb
    rw [Bool.not_eq_false, List.isPrefixOf_iff_prefix] at hb
    obtain ⟨t, ht⟩ := hb
    rcases htok with rfl | rfl | rfl <;>
      (rw [← ht] at hwd
       unfold handleWeekday readWord at hwd
       simp [lit, List.takeWhile_cons, isSpaceC, isDigitC, List.cons_append, toLowerC] at hwd)
  unfold handleToken
  rw [hfalse (lit "today") (by tauto), hfalse (lit "yesterday") (by tauto),
    hfalse (lit "tomorrow") (by tauto)]
  simp

/-- **C6.** When a timestamp begins with a weekday name, a successful parse
falls on that weekday: universally, a `ParseTimestamp` success on an input
accepted by `handleWeekday` has a matching `weekdayOf`; concretely,
`"Tue 2009-11-10"` parses (2009-11-10 was a Tuesday) and `"Mon 2009-11-10"`
is rejected with a weekday mismatch. -/
theorem C6_weekday :
    (∀ (s : Str) (ref t : GoTime) (w : Int) (r : Str),
        ParseTimestamp s ref = .ok t → handleWeekday s = some (w, r) →
        weekdayOf t = w) ∧
    ParseTimestamp (lit "Tue 2009-11-10") ref2009 =
      .ok ⟨1257811200000000000, Loc.utc⟩ ∧
    ParseTimestamp (lit "Mon 2009-11-10") ref2009 =
      .error .weekdayMismatch := by
  refine ⟨?_, by decide, by decide⟩
  intro s ref t w r hok hwd
  obtain ⟨c, cs, hs, hhead⟩ := handleWeekday_head hwd
  obtain ⟨hdig, hdot, hspace, hat, hplus, hminus⟩ := weekday_head_facts hhead
  subst hs
  unfold ParseTimestamp at hok
  rw [if_neg (List.cons_ne_nil c cs)] at hok
  have hnow : handleWeekday (lit "now") = none := by decide
  have hne_now : (c :: cs : Str) ≠ lit "now" := by
    intro hEq
    rw [hEq, hnow] at hwd
    exact absurd hwd (by simp)
  rw [if_neg hne_now] at hok
  dsimp only at hok
  rw [if_neg hat, if_neg hminus, if_neg hplus] at hok
  by_cases hago : (lit " ago").isSuffixOf (c :: cs) = true
  · rw [if_pos hago] at hok
    exfalso
    rcases hsp : ParseTimespan ((c :: cs).take ((c :: cs).length - 4)) with e | dd
    · rw [hsp] at hok; exact absurd hok (by simp)
    · obtain ⟨c2, r2, htake, hfacts⟩ := spanHead hsp
      cases hk : (c :: cs).length - 4 with
      | zero => rw [hk, List.take_zero] at htake; exact absurd htake (by simp)
      | succ n =>
        rw [hk, List.take_succ_cons, List.cons.injEq] at htake
        obtain ⟨h1, -⟩ := htake
        subst h1
        rcases hfacts with hd | rfl | rfl
        · rw [hdig] at hd; exact absurd hd (by simp)
        · exact hdot rfl
        · exact hspace rfl
  · rw [if_neg hago] at hok
    by_cases hleft : (lit " left").isSuffixOf (c :: cs) = true
    · rw [if_pos hleft] at hok
      exfalso
      rcases hsp : ParseTimespan ((c :: cs).take ((c :: cs).length - 5)) with e | dd
      · rw [hsp] at hok; exact absurd hok (by simp)
      · obtain ⟨c2, r2, htake, hfacts⟩ := spanHead hsp
        cases hk : (c :: cs).length - 5 with
        | zero => rw [hk, List.take_zero] at htake; exact absurd htake (by simp)
        | succ n =>
          rw [hk, List.take_succ_cons, List.cons.injEq] at htake
          obtain ⟨h1, -⟩ := htake
          subst h1
          rcases hfacts with hd | rfl | rfl
          · rw [hdig] at hd; exact absurd hd (by simp)
          · exact hdot rfl
          · exact hspace rfl
    · rw [if_neg hleft] at hok
      have htok : (if isLetterC c then handleToken (c :: cs) ref else none)
          = none := by
        by_cases hl : isLetterC c = true
        · rw [if_pos hl]; exact handleToken_of_weekday ref hwd
        · rw [if_neg hl]
      rw [htok] at hok
      dsimp only at hok
      by_cases hdl : (isDigitC c || isLetterC c) = true
      · rw [if_pos hdl] at hok
        exact parseCivil_wd hok hwd
      · rw [if_neg hdl] at hok
        exact absurd hok (by simp)

theorem C6_weekday_witness :
    weekdayOf (⟨1257811200000000000, Loc.utc⟩ : GoTime) = 2 :=
  C6_weekday.1 (lit "Tue 2009-11-10") ref2009 ⟨1257811200000000000, Loc.utc⟩ 2
    (lit " 2009-11-10") (by decide) (by decide)

theorem C4_two_digit_year_witness :
    (false : Bool) = false ∧
      (1969 : Int) = digitsVal ['6', '9'] +
        (if digitsVal ['6', '9'] ≤ 68 then 2000 else 1900) :=
  C4_two_digit_year.1 '6' '9' (lit "-01-01") 1969 1 1 false [] (by decide)
    (by decide)
    (by intro c hc; simp [lit] at hc; subst hc; decide)
    (by decide)

theorem readNum_val {X : Str} {n : Int} {r : Str} (h : readNum X = .ok (n, r)) :
    n = digitsVal (X.takeWhile isDigitC) := by
  unfold readNum at h
  split at h
  · exact absurd h (by simp)
  · split at h
    · exact absurd h (by simp)
    · simp only [Except.ok.injEq, Prod.mk.injEq] at h
      exact h.1.symm

theorem digitsVal_lt_aux (l : Str) (h : ∀ c ∈ l, isDigitC c = true) :
    ∀ acc : Int, l.foldl (fun a c => a * 10 + ((c.toNat : Int) - 48)) acc <
      (acc + 1) * 10 ^ l.length := by
  induction l with
  | nil =>
    intro acc
    simp only [List.foldl_nil, List.length_nil, pow_zero, mul_one]
    omega
  | cons x xs ih =>
    intro acc
    have hx := isDigitC_toNat (h x (by simp))
    have hxs : ∀ c ∈ xs, isDigitC c = true := fun c hc => h c (by simp [hc])
    have step := ih hxs (acc * 10 + ((x.toNat : Int) - 48))
    rw [List.foldl_cons, List.length_cons]
    have hpow : (0 : Int) ≤ 10 ^ xs.length := pow_nonneg (by norm_num) _
    have hdx : ((x.toNat : Int) - 48) ≤ 9 := by
      have := hx.2
      omega
    have h2 : (acc * 10 + ((x.toNat : Int) - 48) + 1) * 10 ^ xs.length ≤
        (acc + 1) * 10 ^ (xs.length + 1) := by
      rw [pow_succ]
      nlinarith [hpow, hdx]
    exact lt_of_lt_of_le step h2

theorem digitsVal_lt {l : Str} (h : ∀ c ∈ l, isDigitC c = true) :
    digitsVal l < 10 ^ l.length := by
  have h0 := digitsVal_lt_aux l h 0
  simpa [digitsVal] using h0

theorem handleDate_flag {u : Str} {y m d : Int} {fy : Bool} {r : Str}
    (h : handleDate u = .ok (y, m, d, fy, r)) :
    fy = decide (digitsVal (u.takeWhile isDigitC) ≥ 100) := by
  rcases u with _ | ⟨c, cs⟩
  · exact absurd h (by simp [handleDate])
  unfold handleDate at h
  dsimp only at h
  split at h
  · exact absurd h (by simp)
  case _ year0 s1 hrn =>
    split at h
    case _ s2 =>
      split at h
      · exact absurd h (by simp)
      case _ month s3 hm =>
        split at h
        · exact absurd h (by simp)
        · split at h
          case _ s4 =>
            split at h
            · exact absurd h (by simp)
            case _ day s5 hd =>
              split at h
              · exact absurd h (by simp)
              · simp only [Except.ok.injEq, Prod.mk.injEq] at h
                obtain ⟨-, -, -, hfy, -⟩ := h
                rw [← hfy, readNum_val hrn]
          case _ => exact absurd h (by simp)
    case _ => exact absurd h (by simp)

theorem digit_facts {c : Char} (h : isDigitC c = true) :
    c ≠ '@' ∧ c ≠ '+' ∧ c ≠ '-' ∧ isLetterC c = false ∧ c ≠ 'n' := by
  have ht := isDigitC_toNat h
  refine ⟨?_, ?_, ?_, ?_, ?_⟩
  · rintro rfl; exact absurd ht.2 (by decide)
  · rintro rfl; exact absurd ht.1 (by decide)
  · rintro rfl; exact absurd ht.1 (by decide)
  · cases hl : isLetterC c
    · rfl
    · exfalso
      simp only [isLetterC, Bool.or_eq_true, Bool.and_eq_true,
        decide_eq_true_eq] at hl
      have ht2 := ht.2
      rcases hl with ⟨h1, -⟩ | ⟨h1, -⟩
      · have h97 : 97 ≤ c.toNat := by
          rw [Char.le_def] at h1
          rw [UInt32.le_def] at h1
          exact h1
        omega
      · have h65 : 65 ≤ c.toNat := by
          rw [Char.le_def] at h1
          rw [UInt32.le_def] at h1
          exact h1
        omega
  · rintro rfl; exact absurd ht.2 (by decide)

/-- **C5 counterexample.** The year token of `"005-01-02T10:00"` has exactly
3 digits, yet the parse is rejected for lack of a full year: the flag is
computed from the year value (`>= 100`), not from the digit count, refuting
the "at least 3 digits" characterisation. -/
theorem C5_counterexample :
    ParseTimestamp (lit "005-01-02T10:00") ref2009 =
        .error .expectedFullYear ∧
    ((lit "005-01-02T10:00").takeWhile isDigitC).length = 3 :=
  ⟨by decide, by decide⟩

/-- **C5 (amended).** The "full year" flag is set exactly when the year
token's value is at least 100 (which forces at least 3 digits, but is not
implied by them); a `T` separator after a date parsed without the flag is
rejected with `expectedFullYear`, and with the flag the `T` form succeeds
(`"2009-11-10T18:15"`), while `"09-11-10T18:15"` is rejected. -/
theorem C5_amended :
    (∀ (u : Str) (y m d : Int) (fy : Bool) (r : Str),
        handleDate u = .ok (y, m, d, fy, r) →
        fy = decide (digitsVal (u.takeWhile isDigitC) ≥ 100) ∧
          (fy = true → 3 ≤ (u.takeWhile isDigitC).length)) ∧
    (∀ (s : Str) (ref : GoTime) (c : Char) (cs : Str) (y m d : Int) (r : Str),
        s = c :: cs → isDigitC c = true →
        (lit " ago").isSuffixOf s = false →
        (lit " left").isSuffixOf s = false →
        (lookahead s).1 = false → (lookahead s).2 = true →
        handleDate s = .ok (y, m, d, false, 'T' :: r) →
        ParseTimestamp s ref = .error .expectedFullYear) ∧
    ParseTimestamp (lit "2009-11-10T18:15") ref2009 =
      .ok ⟨1257876900000000000, Loc.utc⟩ := by
  refine ⟨?_, ?_, by decide⟩
  · intro u y m d fy r h
    have hflag := handleDate_flag h
    refine ⟨hflag, ?_⟩
    intro hfy
    rw [hfy] at hflag
    have h100 : digitsVal (u.takeWhile isDigitC) ≥ 100 :=
      of_decide_eq_true hflag.symm
    have hdigs : ∀ x ∈ u.takeWhile isDigitC, isDigitC x = true := fun x hx =>
      List.mem_takeWhile_imp hx
    have hlt := digitsVal_lt hdigs
    by_contra hlen
    push_neg at hlen
    have hle : (10 : Int) ^ (u.takeWhile isDigitC).length ≤ 10 ^ 2 :=
      pow_le_pow_right₀ (by norm_num) (by omega)
    have h102 : (10 : Int) ^ 2 = 100 := by norm_num
    linarith
  · intro s ref c cs y m d r hs hdig hago hleft hla1 hla2 hdate
    obtain ⟨hat, hplus, hminus, hletter, hn⟩ := digit_facts hdig
    subst hs
    have hne_now : (c :: cs : Str) ≠ lit "now" := by
      intro hEq
      simp [lit] at hEq
      exact hn hEq.1
    unfold ParseTimestamp
    rw [if_neg (List.cons_ne_nil c cs), if_neg hne_now]
    dsimp only
    rw [if_neg hat, if_neg hminus, if_neg hplus,
      if_neg (by rw [hago]; simp), if_neg (by rw [hleft]; simp)]
    have htok : (if isLetterC c then handleToken (c :: cs) ref else none)
        = none := by
      simp [hletter]
    rw [htok]
    dsimp only
    rw [if_pos (by simp [hdig])]
    unfold parseCivil
    rw [handleWeekday_digit_none hdig]
    dsimp only
    unfold civilDate
    rw [if_pos ⟨List.cons_ne_nil c cs, hla2, by simp [hla1]⟩]
    rw [hdate]
    rfl

theorem C5_amended_witness :
    ParseTimestamp (lit "09-11-10T18:15") ref2009 =
      .error .expectedFullYear :=
  C5_amended.2.1 (lit "09-11-10T18:15") ref2009 '0' (lit "9-11-10T18:15")
    2009 11 10 (lit "18:15") (by decide) (by decide) (by decide) (by decide)
    (by decide) (by decide) (by decide)

theorem digits_scanCD (l : Str) (h : ∀ c ∈ l, isDigitC c = true) :
    scanCD l = (false, false) := by
  induction l with
  | nil => rfl
  | cons x xs ih =>
    have ht := isDigitC_toNat (h x (by simp))
    have h1 : x ≠ ':' := by rintro rfl; exact absurd ht.2 (by decide)
    have h2 : x ≠ '-' := by rintro rfl; exact absurd ht.1 (by decide)
    unfold scanCD
    rw [if_neg h1, if_neg h2]
    exact ih (fun c hc => h c (by simp [hc]))

theorem lookahead_five_digits {d1 d2 d3 d4 d5 : Char} {rest : Str}
    (h1 : isDigitC d1 = true) (h2 : isDigitC d2 = true)
    (h3 : isDigitC d3 = true) (h4 : isDigitC d4 = true)
    (h5 : isDigitC d5 = true) :
    lookahead (d1 :: d2 :: d3 :: d4 :: d5 :: rest) = (false, false) := by
  unfold lookahead
  dsimp only
  rw [if_pos h1]
  have htake : (d1 :: d2 :: d3 :: d4 :: d5 :: rest).take 5 =
      [d1, d2, d3, d4, d5] := rfl
  rw [htake]
  refine digits_scanCD _ ?_
  intro c hc
  simp only [List.mem_cons, List.not_mem_nil, or_false] at hc
  rcases hc with rfl | rfl | rfl | rfl | rfl <;> assumption

theorem weekday_head_letter {c : Char}
    (h : toLowerC c = 'm' ∨ toLowerC c = 't' ∨ toLowerC c = 'w' ∨
      toLowerC c = 'f' ∨ toLowerC c = 's') :
    isLetterC c = true := by
  unfold toLowerC at h
  by_cases hr : 'A' ≤ c ∧ c ≤ 'Z'
  · simp only [isLetterC, Bool.or_eq_true, Bool.and_eq_true, decide_eq_true_eq]
    exact Or.inr hr
  · rw [if_neg hr] at h
    simp only [isLetterC, Bool.or_eq_true, Bool.and_eq_true, decide_eq_true_eq]
    left
    rcases h with rfl | rfl | rfl | rfl | rfl <;> exact ⟨by decide, by decide⟩

/-- **C10 counterexample.** `"12345 ago"` has a leading digit run of 5 digits
and no dash or colon at all, yet `ParseTimestamp` succeeds (the `" ago"`
relative branch fires before the civil branch), refuting the claim that every
such input is rejected. -/
theorem C10_counterexample :
    ParseTimestamp (lit "12345 ago") ref2009 =
      .ok ⟨1257881655000000000, Loc.utc⟩ := by decide

/-- **C10 (amended).** On the civil path the discriminator looks at most 5
characters ahead, so an input whose first 5 characters (directly, or after a
weekday and spaces) are all digits is rejected as an ambiguous time-only
form — provided no `" ago"`/`" left"` suffix diverts it to the relative
branches first. In particular `"12345-01-02"` is rejected with
`ambiguousTime` although every field is in range. -/
theorem C10_amended :
    (∀ (ref : GoTime) (d1 d2 d3 d4 d5 : Char) (rest : Str),
        isDigitC d1 = true → isDigitC d2 = true → isDigitC d3 = true →
        isDigitC d4 = true → isDigitC d5 = true →
        (lit " ago").isSuffixOf (d1 :: d2 :: d3 :: d4 :: d5 :: rest) = false →
        (lit " left").isSuffixOf (d1 :: d2 :: d3 :: d4 :: d5 :: rest) = false →
        ParseTimestamp (d1 :: d2 :: d3 :: d4 :: d5 :: rest) ref =
          .error .ambiguousTime) ∧
    (∀ (s : Str) (ref : GoTime) (w : Int) (r : Str)
        (d1 d2 d3 d4 d5 : Char) (rest : Str),
        handleWeekday s = some (w, r) →
        r.dropWhile isSpaceC = d1 :: d2 :: d3 :: d4 :: d5 :: rest →
        isDigitC d1 = true → isDigitC d2 = true → isDigitC d3 = true →
        isDigitC d4 = true → isDigitC d5 = true →
        (lit " ago").isSuffixOf s = false →
        (lit " left").isSuffixOf s = false →
        ParseTimestamp s ref = .error .ambiguousTime) := by
  refine ⟨?_, ?_⟩
  · intro ref d1 d2 d3 d4 d5 rest h1 h2 h3 h4 h5 hago hleft
    obtain ⟨hat, hplus, hminus, hletter, hn⟩ := digit_facts h1
    have hne_now : (d1 :: d2 :: d3 :: d4 :: d5 :: rest : Str) ≠ lit "now" := by
      intro hEq
      simp [lit] at hEq
    unfold ParseTimestamp
    rw [if_neg (List.cons_ne_nil _ _), if_neg hne_now]
    dsimp only
    rw [if_neg hat, if_neg hminus, if_neg hplus,
      if_neg (by rw [hago]; simp), if_neg (by rw [hleft]; simp)]
    have htok : (if isLetterC d1 then
        handleToken (d1 :: d2 :: d3 :: d4 :: d5 :: rest) ref else none)
        = none := by simp [hletter]
    rw [htok]
    dsimp only
    rw [if_pos (by simp [h1])]
    unfold parseCivil
    rw [handleWeekday_digit_none h1]
    dsimp only
    have hla := @lookahead_five_digits d1 d2 d3 d4 d5 rest h1 h2 h3 h4 h5
    unfold civilDate
    rw [if_neg (by rw [hla]; simp)]
    rw [hla]
    dsimp only
    unfold civilTime
    dsimp only
    rw [if_pos h1, if_pos (by simp)]
  · intro s ref w r d1 d2 d3 d4 d5 rest hwd hr h1 h2 h3 h4 h5 hago hleft
    obtain ⟨c, cs, hs, hhead⟩ := handleWeekday_head hwd
    obtain ⟨hdig, hdot, hspace, hat, hplus, hminus⟩ := weekday_head_facts hhead
    subst hs
    have hnow : handleWeekday (lit "now") = none := by decide
    have hne_now : (c :: cs : Str) ≠ lit "now" := by
      intro hEq
      rw [hEq, hnow] at hwd
      exact absurd hwd (by simp)
    unfold ParseTimestamp
    rw [if_neg (List.cons_ne_nil c cs), if_neg hne_now]
    dsimp only
    rw [if_neg hat, if_neg hminus, if_neg hplus,
      if_neg (by rw [hago]; simp), if_neg (by rw [hleft]; simp)]
    have htok : (if isLetterC c then handleToken (c :: cs) ref else none)
        = none := by
      by_cases hl : isLetterC c = true
      · rw [if_pos hl]; exact handleToken_of_weekday ref hwd
      · rw [if_neg hl]
    rw [htok]
    dsimp only
    rw [if_pos (by simp [weekday_head_letter hhead])]
    unfold parseCivil
    rw [hwd]
    dsimp only
    rw [hr]
    have hla := @lookahead_five_digits d1 d2 d3 d4 d5 rest h1 h2 h3 h4 h5
    unfold civilDate
    rw [if_neg (by rw [hla]; simp)]
    rw [hla]
    dsimp only
    unfold civilTime
    dsimp only
    rw [if_pos h1, if_pos (by simp)]

theorem C10_amended_witness :
    ParseTimestamp (lit "12345-01-02") ref2009 = .error .ambiguousTime :=
  C10_amended.1 ref2009 '1' '2' '3' '4' '5' (lit "-01-02") (by decide)
    (by decide) (by decide) (by decide) (by decide) (by decide) (by decide)

end Systemdtime
